import Mathlib

/-!
A shallow embedding of the ZIP-directory parser in `src/pkzip.rs` of the
`zest` repository, together with theorems checking the natural-language
specification against it.

Modelling conventions:
* A byte is a `Nat` (real streams carry values `< 256`; nothing below
  truncates, exactly as the Rust `u8` source values are already in range).
* A Rust `String` is modelled by its UTF-8 byte list (`List Nat`); UTF-8
  encoding is injective on valid byte sequences, so equality of Rust
  `String`s coincides with equality of the byte lists.
* The seekable reader (`R : Read + Seek`) is modelled by a `ByteStream`:
  the full underlying data plus a cursor position.
* Fallible Rust code returning `Result` is modelled by `Outcome`; Rust
  panics (out-of-bounds slicing, `split_at` past the end) are modelled by
  the distinguished `Outcome.panic` value.
* `HashMap<String, usize>` is modelled by an association list where
  `insert` prepends and lookup takes the most recent binding, which is
  the overwrite semantics of `HashMap::insert`.
-/

/-- Mirrors `std::io::ErrorKind` as far as this code can produce it:
`read_exact` on a too-short stream yields `UnexpectedEof`. -/
inductive IOKind where
  | UnexpectedEof
  deriving DecidableEq, Repr

/-- Mirrors `enum ErrorKind { IO(std::io::ErrorKind), FromUtf8Error, Other }`
(the first constructor is written `IOError` here). -/
inductive ErrorKind where
  | IOError : IOKind → ErrorKind
  | FromUtf8Error
  | Other
  deriving DecidableEq, Repr

/-- Mirrors `struct Error { kind: ErrorKind }`. -/
structure Error where
  kind : ErrorKind
  deriving DecidableEq, Repr

/-- Result of running a piece of the Rust code: normal value, `Err`, or a panic
(reached by out-of-bounds slicing). -/
inductive Outcome (α : Type) where
  | ok : α → Outcome α
  | err : Error → Outcome α
  | panic : Outcome α
  deriving DecidableEq, Repr

def Outcome.bind {α β : Type} : Outcome α → (α → Outcome β) → Outcome β
  | .ok a, f => f a
  | .err e, _ => .err e
  | .panic, _ => .panic

instance : Monad Outcome where
  pure := .ok
  bind := Outcome.bind

@[simp] theorem Outcome.bind_ok {α β : Type} (a : α) (f : α → Outcome β) :
    Outcome.bind (.ok a) f = f a := rfl

@[simp] theorem Outcome.bind_err {α β : Type} (e : Error) (f : α → Outcome β) :
    Outcome.bind (.err e) f = .err e := rfl

@[simp] theorem Outcome.bind_panic {α β : Type} (f : α → Outcome β) :
    Outcome.bind .panic f = .panic := rfl

@[simp] theorem Outcome.monad_bind_eq {α β : Type} (x : Outcome α) (f : α → Outcome β) :
    x >>= f = Outcome.bind x f := rfl

@[simp] theorem Outcome.pure_eq {α : Type} (a : α) : (pure a : Outcome α) = .ok a := rfl

def Outcome.isOk {α : Type} : Outcome α → Bool
  | .ok _ => true
  | _ => false

/-- Little-endian value of a byte list: `u16::from_le_bytes` /
`u32::from_le_bytes` applied to a list of the right length. -/
def leVal (l : List Nat) : Nat := l.foldr (fun b acc => b + 256 * acc) 0

@[simp] theorem leVal_nil : leVal [] = 0 := rfl

@[simp] theorem leVal_cons (b : Nat) (l : List Nat) :
    leVal (b :: l) = b + 256 * leVal l := rfl

/-- Mirrors `fn read_le_u16`: `split_at(2)` (which panics when fewer than 2
bytes remain, never reached by the callers here) then `u16::from_le_bytes`. -/
def read_le_u16 (input : List Nat) : Outcome (Nat × List Nat) :=
  if 2 ≤ input.length then .ok (leVal (input.take 2), input.drop 2) else .panic

/-- Mirrors `fn read_le_u32`. -/
def read_le_u32 (input : List Nat) : Outcome (Nat × List Nat) :=
  if 4 ≤ input.length then .ok (leVal (input.take 4), input.drop 4) else .panic

/-- Rust slice indexing `buf[a..b]`: panics unless `a ≤ b ≤ buf.len()`. -/
def sliceBytes (buf : List Nat) (a b : Nat) : Outcome (List Nat) :=
  if a ≤ b ∧ b ≤ buf.length then .ok ((buf.drop a).take (b - a)) else .panic

/-- Is `b` a UTF-8 continuation byte (`0x80 ..= 0xBF`)? -/
def contByte (b : Nat) : Bool := 0x80 ≤ b && b ≤ 0xBF

/-- Validity of a byte sequence as UTF-8, as checked by Rust's
`String::from_utf8`: no overlong encodings, no surrogates, max `U+10FFFF`. -/
def validUtf8 : List Nat → Bool
  | [] => true
  | b :: rest =>
    if b ≤ 0x7F then validUtf8 rest
    else if b < 0xC2 then false
    else if b ≤ 0xDF then
      match rest with
      | b1 :: r => contByte b1 && validUtf8 r
      | [] => false
    else if b ≤ 0xEF then
      match rest with
      | b1 :: b2 :: r =>
        (if b = 0xE0 then 0xA0 ≤ b1 && b1 ≤ 0xBF
         else if b = 0xED then 0x80 ≤ b1 && b1 ≤ 0x9F
         else contByte b1) && contByte b2 && validUtf8 r
      | _ => false
    else if b ≤ 0xF4 then
      match rest with
      | b1 :: b2 :: b3 :: r =>
        (if b = 0xF0 then 0x90 ≤ b1 && b1 ≤ 0xBF
         else if b = 0xF4 then 0x80 ≤ b1 && b1 ≤ 0x8F
         else contByte b1) && contByte b2 && contByte b3 && validUtf8 r
      | _ => false
    else false

/-- Mirrors `String::from_utf8(bytes)?`: the string is modelled by its bytes. -/
def fromUtf8 (l : List Nat) : Outcome (List Nat) :=
  if validUtf8 l then .ok l else .err ⟨.FromUtf8Error⟩

/-- The seekable byte source (`R : Read + io::Seek`): underlying data plus
the cursor position. -/
structure ByteStream where
  data : List Nat
  pos : Nat
  deriving DecidableEq, Repr

/-- Mirrors `Read::read_exact(&mut buf)` for a buffer of `n` bytes: returns
the next `n` bytes and advances, or fails with `UnexpectedEof` when fewer
than `n` bytes remain past the cursor. -/
def readExact (s : ByteStream) (n : Nat) : Outcome (List Nat × ByteStream) :=
  if s.pos + n ≤ s.data.length then
    .ok ((s.data.drop s.pos).take n, ⟨s.data, s.pos + n⟩)
  else .err ⟨.IOError .UnexpectedEof⟩

/-- Mirrors `enum CompressionMethod { Uncompressed = 0, Deflate = 8, Unsupported = u16::MAX }`. -/
inductive CompressionMethod where
  | Uncompressed
  | Deflate
  | Unsupported
  deriving DecidableEq, Repr

/-- Mirrors `impl From<u16> for CompressionMethod`. -/
def CompressionMethod.fromU16 (n : Nat) : CompressionMethod :=
  match n with
  | 0 => .Uncompressed
  | 8 => .Deflate
  | _ => .Unsupported

/-- Mirrors `struct ZipEndOfCentralDirectoryHeader` (the field name
`cendral_dir_offset` keeps the source's spelling). -/
structure ZipEndOfCentralDirectoryHeader where
  signature : Nat
  disk_number : Nat
  start_disk : Nat
  num_disk_entries : Nat
  num_entries : Nat
  central_dir_len : Nat
  cendral_dir_offset : Nat
  comment_len : Nat
  deriving DecidableEq, Repr

/-- Mirrors `struct ZipEndOfCentralDirectory`. -/
structure ZipEndOfCentralDirectory where
  header : ZipEndOfCentralDirectoryHeader
  comment : List Nat
  deriving DecidableEq, Repr

/-- Mirrors `struct ZipCentralDirectoryFileHeader`. -/
structure ZipCentralDirectoryFileHeader where
  signature : Nat
  made_by_ver : Nat
  min_extract_ver : Nat
  general_purpose_flag : Nat
  compression_method : CompressionMethod
  last_mod_time : Nat
  last_mod_date : Nat
  crc32 : Nat
  compressed_len : Nat
  uncompressed_len : Nat
  file_name_len : Nat
  extra_field_len : Nat
  comment_len : Nat
  start_disk : Nat
  internal_attrib : Nat
  external_attrib : Nat
  relative_offset_of_local_header : Nat
  deriving DecidableEq, Repr

/-- Mirrors `struct ZipCentralDirectoryFile`. -/
structure ZipCentralDirectoryFile where
  header : ZipCentralDirectoryFileHeader
  filename : List Nat
  extra : List Nat
  comment : List Nat
  deriving DecidableEq, Repr

/-- Model of `HashMap<String, usize>`: association list, latest insert first. -/
abbrev NameMap := List (List Nat × Nat)

/-- Mirrors `HashMap::insert` (the later binding shadows the earlier one). -/
def insertName (m : NameMap) (k : List Nat) (v : Nat) : NameMap := (k, v) :: m

/-- Mirrors `HashMap` lookup: the most recent binding for the key wins. -/
def lookupName (m : NameMap) (k : List Nat) : Option Nat :=
  (m.find? (fun p => p.1 == k)).map Prod.snd

/-- Mirrors `struct ZipArchive<R>`. -/
structure ZipArchive where
  reader : ByteStream
  eocd : ZipEndOfCentralDirectory
  files : List ZipCentralDirectoryFile
  names : NameMap
  deriving DecidableEq, Repr

def BUF_SIZE : Nat := 65536
def LOCAL_FILE_HEADER_SIGNATURE : Nat := 0x04034b50
def CENTRAL_DIRECTORY_SIGNATURE : Nat := 0x02014b50
def END_OF_CENTRAL_DIRECTORY_SIGNATURE : Nat := 0x06054b50

/-- Models `buf.windows(4)`: every contiguous window of 4 bytes, one per
start offset `0, 1, ..., buf.len() - 4` (stride one byte). -/
def windows4 (buf : List Nat) : List (List Nat) :=
  (List.range (buf.length - 3)).map fun i => (buf.drop i).take 4

/-- Models `buf.windows(4).rev().position(|w| u32::from_le_bytes(w) == EOCD_SIG)`. -/
def eocdScan (buf : List Nat) : Option Nat :=
  (windows4 buf).reverse.findIdx? fun w => leVal w == END_OF_CENTRAL_DIRECTORY_SIGNATURE

/-- The decoding tail of `ZipEndOfCentralDirectory::find` beginning at
`let mut bytes = &buf[start..start + size_of::<..Header>()]`: slices the
22-byte fixed header out of `buf` at `start`, reads its fields, then slices
and UTF-8-decodes the `comment_len` bytes that follow. -/
def decodeEocdFrom (buf : List Nat) (start : Nat) : Outcome ZipEndOfCentralDirectory := do
  let bytes ← sliceBytes buf start (start + 22)
  let (signature, bytes) ← read_le_u32 bytes
  let (disk_number, bytes) ← read_le_u16 bytes
  let (start_disk, bytes) ← read_le_u16 bytes
  let (num_disk_entries, bytes) ← read_le_u16 bytes
  let (num_entries, bytes) ← read_le_u16 bytes
  let (central_dir_len, bytes) ← read_le_u32 bytes
  let (cendral_dir_offset, bytes) ← read_le_u32 bytes
  let (comment_len, _) ← read_le_u16 bytes
  let commentBytes ← sliceBytes buf (start + 22) (start + 22 + comment_len)
  let comment ← fromUtf8 commentBytes
  pure ⟨⟨signature, disk_number, start_disk, num_disk_entries, num_entries,
         central_dir_len, cendral_dir_offset, comment_len⟩, comment⟩

/-- Mirrors `ZipEndOfCentralDirectory::find`. -/
def ZipEndOfCentralDirectory.find (r : ByteStream) :
    Outcome (ZipEndOfCentralDirectory × ByteStream) :=
  -- `reader.seek(SeekFrom::End(0))` yields the stream length
  let fsize := r.data.length
  if fsize < 22 then .err ⟨.Other⟩
  else
    let nbytes := min fsize BUF_SIZE
    -- `reader.seek(SeekFrom::Start(fsize - nbytes))` then `read_exact`
    Outcome.bind (readExact ⟨r.data, fsize - nbytes⟩ nbytes) fun br =>
      match eocdScan br.1 with
      | none => .err ⟨.Other⟩
      | some i =>
        let eocd_pos := i + 4
        let start := nbytes - eocd_pos
        Outcome.bind (decodeEocdFrom br.1 start) fun eocd => .ok (eocd, br.2)

/-- Mirrors `ZipCentralDirectoryFile::find`. -/
def ZipCentralDirectoryFile.find (s : ByteStream) :
    Outcome (ZipCentralDirectoryFile × ByteStream) := do
  let (buf, s) ← readExact s 46
  let (signature, bytes) ← read_le_u32 buf
  if signature ≠ CENTRAL_DIRECTORY_SIGNATURE then .err ⟨.Other⟩ else do
  let (made_by_ver, bytes) ← read_le_u16 bytes
  let (min_extract_ver, bytes) ← read_le_u16 bytes
  let (general_purpose_flag, bytes) ← read_le_u16 bytes
  let (compression_method, bytes) ← read_le_u16 bytes
  let (last_mod_time, bytes) ← read_le_u16 bytes
  let (last_mod_date, bytes) ← read_le_u16 bytes
  let (crc32, bytes) ← read_le_u32 bytes
  let (compressed_len, bytes) ← read_le_u32 bytes
  let (uncompressed_len, bytes) ← read_le_u32 bytes
  let (file_name_len, bytes) ← read_le_u16 bytes
  let (extra_field_len, bytes) ← read_le_u16 bytes
  let (comment_len, bytes) ← read_le_u16 bytes
  let (start_disk, bytes) ← read_le_u16 bytes
  let (internal_attrib, bytes) ← read_le_u16 bytes
  let (external_attrib, bytes) ← read_le_u32 bytes
  let (relative_offset_of_local_header, _) ← read_le_u32 bytes
  let header : ZipCentralDirectoryFileHeader :=
    ⟨signature, made_by_ver, min_extract_ver, general_purpose_flag,
     CompressionMethod.fromU16 compression_method, last_mod_time, last_mod_date,
     crc32, compressed_len, uncompressed_len, file_name_len, extra_field_len,
     comment_len, start_disk, internal_attrib, external_attrib,
     relative_offset_of_local_header⟩
  let (buf2, s) ← readExact s (file_name_len + extra_field_len + comment_len)
  let startIdx := 0
  let endIdx := file_name_len
  let filename ← (if file_name_len = 0 then pure [] else do
    let fb ← sliceBytes buf2 startIdx endIdx
    fromUtf8 fb)
  let startIdx := endIdx
  let endIdx := startIdx + extra_field_len
  let extra ← (if extra_field_len = 0 then pure [] else sliceBytes buf2 startIdx endIdx)
  let startIdx := endIdx
  let endIdx := startIdx + comment_len
  let comment ← (if comment_len = 0 then pure [] else do
    let cb ← sliceBytes buf2 startIdx endIdx
    fromUtf8 cb)
  pure (⟨header, filename, extra, comment⟩, s)

/-- The `for _ in 0..eocd.header.num_entries` loop body of `ZipArchive::new`,
with the `files` and `names` accumulators made explicit. -/
def ZipArchive.newLoop :
    Nat → ByteStream → List ZipCentralDirectoryFile → NameMap →
    Outcome (List ZipCentralDirectoryFile × NameMap × ByteStream)
  | 0, r, files, names => .ok (files, names, r)
  | n + 1, r, files, names =>
    Outcome.bind (ZipCentralDirectoryFile.find r) fun cr =>
      ZipArchive.newLoop n cr.2 (files ++ [cr.1]) (insertName names cr.1.filename files.length)

/-- Mirrors `ZipArchive::new`. -/
def ZipArchive.new (r : ByteStream) : Outcome ZipArchive := do
  let (eocd, r) ← ZipEndOfCentralDirectory.find r
  -- `reader.seek(SeekFrom::Start(eocd.header.cendral_dir_offset))`
  let r : ByteStream := ⟨r.data, eocd.header.cendral_dir_offset⟩
  let (files, names, r) ← ZipArchive.newLoop eocd.header.num_entries r [] []
  pure ⟨r, eocd, files, names⟩

/-- Reference sequential decoder: the central-directory records decoded one
after another, in stream order, without the accumulators of `newLoop`.
Used to state that `new` produces its entries in on-disk order. -/
def decodeEntries : Nat → ByteStream → Outcome (List ZipCentralDirectoryFile × ByteStream)
  | 0, r => .ok ([], r)
  | n + 1, r =>
    Outcome.bind (ZipCentralDirectoryFile.find r) fun cr =>
      Outcome.bind (decodeEntries n cr.2) fun er =>
        .ok (cr.1 :: er.1, er.2)

/-! ### Properties of the backward signature scan -/

/-- The EOCD signature occurs at start offset `t` of `buf`, all four bytes
within bounds. -/
def sigAt (buf : List Nat) (t : Nat) : Bool :=
  decide (t + 4 ≤ buf.length) &&
    (leVal ((buf.drop t).take 4) == END_OF_CENTRAL_DIRECTORY_SIGNATURE)

@[simp] theorem length_windows4 (buf : List Nat) :
    (windows4 buf).length = buf.length - 3 := by
  simp [windows4]

theorem eocdScan_eq_none_iff (buf : List Nat) :
    eocdScan buf = none ↔ ∀ t, sigAt buf t = false := by
  rw [eocdScan, List.findIdx?_eq_none_iff]
  constructor
  · intro h t
    by_cases ht : t + 4 ≤ buf.length
    · have hmem : (buf.drop t).take 4 ∈ (windows4 buf).reverse := by
        rw [List.mem_reverse, windows4, List.mem_map]
        exact ⟨t, by rw [List.mem_range]; omega, rfl⟩
      have hw := h _ hmem
      simp only [sigAt, Bool.and_eq_false_iff]
      right
      exact hw
    · simp [sigAt, ht]
  · intro h w hw
    rw [List.mem_reverse, windows4, List.mem_map] at hw
    obtain ⟨t, htr, rfl⟩ := hw
    rw [List.mem_range] at htr
    have hs := h t
    simp only [sigAt, Bool.and_eq_false_iff, decide_eq_false_iff_not, Nat.not_le] at hs
    rcases hs with hs | hs
    · omega
    · exact hs

theorem windows4_reverse_getElem (buf : List Nat) (k : Nat)
    (hk : k < (windows4 buf).reverse.length) :
    (windows4 buf).reverse[k] = (buf.drop (buf.length - 4 - k)).take 4 := by
  rw [List.getElem_reverse]
  simp only [windows4, List.getElem_map, List.getElem_range, List.length_map,
    List.length_range]
  have harith : buf.length - 3 - 1 - k = buf.length - 4 - k := by omega
  rw [harith]

theorem eocdScan_eq_some_of_nearest (buf : List Nat) (st : Nat)
    (h1 : sigAt buf st = true) (h2 : ∀ t, st < t → sigAt buf t = false) :
    eocdScan buf = some (buf.length - 4 - st) := by
  have hst : st + 4 ≤ buf.length := by
    by_contra hc
    simp [sigAt, hc] at h1
  have hsig : (leVal ((buf.drop st).take 4) == END_OF_CENTRAL_DIRECTORY_SIGNATURE) = true := by
    simp only [sigAt, Bool.and_eq_true] at h1
    exact h1.2
  rw [eocdScan, List.findIdx?_eq_some_iff_getElem]
  have hrl : (windows4 buf).reverse.length = buf.length - 3 := by simp
  have hlt : buf.length - 4 - st < (windows4 buf).reverse.length := by omega
  refine ⟨hlt, ?_, ?_⟩
  · rw [windows4_reverse_getElem buf _ hlt]
    have harith : buf.length - 4 - (buf.length - 4 - st) = st := by omega
    rw [harith]
    exact hsig
  · intro j hj
    rw [windows4_reverse_getElem buf j (by omega)]
    have hgt : st < buf.length - 4 - j := by omega
    have hfalse := h2 _ hgt
    simp only [sigAt, Bool.and_eq_false_iff, decide_eq_false_iff_not, Nat.not_le] at hfalse
    rcases hfalse with hl | hne
    · omega
    · simp [hne]

/-! ### Decoding lemmas -/

theorem read_le_u16_drop_take (buf : List Nat) (s m : Nat) (h2 : 2 ≤ m)
    (hlen : s + 2 ≤ buf.length) :
    read_le_u16 ((buf.drop s).take m) =
      .ok (leVal ((buf.drop s).take 2), (buf.drop (s + 2)).take (m - 2)) := by
  rw [read_le_u16, if_pos (by simp only [List.length_take, List.length_drop]; omega)]
  rw [List.take_take, Nat.min_eq_left h2, List.drop_take, List.drop_drop]

theorem read_le_u32_drop_take (buf : List Nat) (s m : Nat) (h2 : 4 ≤ m)
    (hlen : s + 4 ≤ buf.length) :
    read_le_u32 ((buf.drop s).take m) =
      .ok (leVal ((buf.drop s).take 4), (buf.drop (s + 4)).take (m - 4)) := by
  rw [read_le_u32, if_pos (by simp only [List.length_take, List.length_drop]; omega)]
  rw [List.take_take, Nat.min_eq_left h2, List.drop_take, List.drop_drop]

theorem sliceBytes_eq_ok (buf : List Nat) (a b : Nat) (h1 : a ≤ b)
    (h2 : b ≤ buf.length) :
    sliceBytes buf a b = .ok ((buf.drop a).take (b - a)) := by
  rw [sliceBytes, if_pos ⟨h1, h2⟩]

theorem sliceBytes_eq_panic (buf : List Nat) (a b : Nat)
    (h : ¬(a ≤ b ∧ b ≤ buf.length)) : sliceBytes buf a b = .panic := by
  rw [sliceBytes, if_neg h]

/-- The eight fixed EOCD header fields as they sit in `buf` at offset `start`. -/
def eocdHeaderAt (buf : List Nat) (start : Nat) : ZipEndOfCentralDirectoryHeader :=
  ⟨leVal ((buf.drop start).take 4),
   leVal ((buf.drop (start + 4)).take 2),
   leVal ((buf.drop (start + 6)).take 2),
   leVal ((buf.drop (start + 8)).take 2),
   leVal ((buf.drop (start + 10)).take 2),
   leVal ((buf.drop (start + 12)).take 4),
   leVal ((buf.drop (start + 16)).take 4),
   leVal ((buf.drop (start + 20)).take 2)⟩

/-- The comment length declared by the EOCD header at offset `start` of `buf`. -/
def eocdCommentLenAt (buf : List Nat) (start : Nat) : Nat :=
  leVal ((buf.drop (start + 20)).take 2)

theorem decodeEocdFrom_eq (buf : List Nat) (start : Nat)
    (hh : start + 22 ≤ buf.length)
    (hc : start + 22 + eocdCommentLenAt buf start ≤ buf.length) :
    decodeEocdFrom buf start =
      (if validUtf8 ((buf.drop (start + 22)).take (eocdCommentLenAt buf start)) then
        .ok ⟨eocdHeaderAt buf start,
             (buf.drop (start + 22)).take (eocdCommentLenAt buf start)⟩
      else .err ⟨.FromUtf8Error⟩) := by
  rw [decodeEocdFrom]
  rw [sliceBytes_eq_ok buf start (start + 22) (by omega) hh]
  simp only [Outcome.monad_bind_eq, Outcome.bind_ok, Nat.add_sub_cancel_left]
  rw [read_le_u32_drop_take buf start 22 (by omega) (by omega)]
  simp only [Outcome.bind_ok]
  rw [read_le_u16_drop_take buf (start + 4) (22 - 4) (by omega) (by omega)]
  simp only [Outcome.bind_ok]
  rw [read_le_u16_drop_take buf (start + 4 + 2) (22 - 4 - 2) (by omega) (by omega)]
  simp only [Outcome.bind_ok]
  rw [read_le_u16_drop_take buf (start + 4 + 2 + 2) (22 - 4 - 2 - 2) (by omega) (by omega)]
  simp only [Outcome.bind_ok]
  rw [read_le_u16_drop_take buf (start + 4 + 2 + 2 + 2) (22 - 4 - 2 - 2 - 2) (by omega)
    (by omega)]
  simp only [Outcome.bind_ok]
  rw [read_le_u32_drop_take buf (start + 4 + 2 + 2 + 2 + 2) (22 - 4 - 2 - 2 - 2 - 2)
    (by omega) (by omega)]
  simp only [Outcome.bind_ok]
  rw [read_le_u32_drop_take buf (start + 4 + 2 + 2 + 2 + 2 + 4) (22 - 4 - 2 - 2 - 2 - 2 - 4)
    (by omega) (by omega)]
  simp only [Outcome.bind_ok]
  rw [read_le_u16_drop_take buf (start + 4 + 2 + 2 + 2 + 2 + 4 + 4)
    (22 - 4 - 2 - 2 - 2 - 2 - 4 - 4) (by omega) (by omega)]
  simp only [Outcome.bind_ok]
  have h20 : start + 4 + 2 + 2 + 2 + 2 + 4 + 4 = start + 20 := by omega
  have h6 : start + 4 + 2 = start + 6 := by omega
  have h8 : start + 4 + 2 + 2 = start + 8 := by omega
  have h10 : start + 4 + 2 + 2 + 2 = start + 10 := by omega
  have h12 : start + 4 + 2 + 2 + 2 + 2 = start + 12 := by omega
  have h16 : start + 4 + 2 + 2 + 2 + 2 + 4 = start + 16 := by omega
  rw [h6, h8, h10, h12, h16, h20]
  rw [show leVal ((buf.drop (start + 20)).take 2) = eocdCommentLenAt buf start from rfl]
  rw [sliceBytes_eq_ok buf (start + 22) (start + 22 + eocdCommentLenAt buf start)
    (by omega) hc]
  simp only [Outcome.bind_ok, Nat.add_sub_cancel_left, fromUtf8]
  split
  · rfl
  · rfl

theorem decodeEocdFrom_panic_hdr (buf : List Nat) (start : Nat)
    (h : buf.length < start + 22) : decodeEocdFrom buf start = .panic := by
  rw [decodeEocdFrom, sliceBytes_eq_panic buf start (start + 22) (by omega)]
  rfl

theorem decodeEocdFrom_panic_comment (buf : List Nat) (start : Nat)
    (hh : start + 22 ≤ buf.length)
    (hc : buf.length < start + 22 + eocdCommentLenAt buf start) :
    decodeEocdFrom buf start = .panic := by
  rw [decodeEocdFrom]
  rw [sliceBytes_eq_ok buf start (start + 22) (by omega) hh]
  simp only [Outcome.monad_bind_eq, Outcome.bind_ok, Nat.add_sub_cancel_left]
  rw [read_le_u32_drop_take buf start 22 (by omega) (by omega)]
  simp only [Outcome.bind_ok]
  rw [read_le_u16_drop_take buf (start + 4) (22 - 4) (by omega) (by omega)]
  simp only [Outcome.bind_ok]
  rw [read_le_u16_drop_take buf (start + 4 + 2) (22 - 4 - 2) (by omega) (by omega)]
  simp only [Outcome.bind_ok]
  rw [read_le_u16_drop_take buf (start + 4 + 2 + 2) (22 - 4 - 2 - 2) (by omega) (by omega)]
  simp only [Outcome.bind_ok]
  rw [read_le_u16_drop_take buf (start + 4 + 2 + 2 + 2) (22 - 4 - 2 - 2 - 2) (by omega)
    (by omega)]
  simp only [Outcome.bind_ok]
  rw [read_le_u32_drop_take buf (start + 4 + 2 + 2 + 2 + 2) (22 - 4 - 2 - 2 - 2 - 2)
    (by omega) (by omega)]
  simp only [Outcome.bind_ok]
  rw [read_le_u32_drop_take buf (start + 4 + 2 + 2 + 2 + 2 + 4) (22 - 4 - 2 - 2 - 2 - 2 - 4)
    (by omega) (by omega)]
  simp only [Outcome.bind_ok]
  rw [read_le_u16_drop_take buf (start + 4 + 2 + 2 + 2 + 2 + 4 + 4)
    (22 - 4 - 2 - 2 - 2 - 2 - 4 - 4) (by omega) (by omega)]
  simp only [Outcome.bind_ok]
  have h20 : start + 4 + 2 + 2 + 2 + 2 + 4 + 4 = start + 20 := by omega
  rw [h20]
  rw [show leVal ((buf.drop (start + 20)).take 2) = eocdCommentLenAt buf start from rfl]
  rw [sliceBytes_eq_panic buf (start + 22) (start + 22 + eocdCommentLenAt buf start)
    (by omega)]
  rfl

/-- The trailing read window of the EOCD search: the last
`min (stream length) BUF_SIZE` bytes of the stream. -/
def trailingWindow (d : List Nat) : List Nat :=
  (d.drop (d.length - min d.length BUF_SIZE)).take (min d.length BUF_SIZE)

theorem eocd_find_eq (r : ByteStream) (h : 22 ≤ r.data.length) :
    ZipEndOfCentralDirectory.find r =
      match eocdScan (trailingWindow r.data) with
      | none => .err ⟨.Other⟩
      | some i =>
        Outcome.bind
          (decodeEocdFrom (trailingWindow r.data) (min r.data.length BUF_SIZE - (i + 4)))
          fun eocd => .ok (eocd, ⟨r.data, r.data.length⟩) := by
  have hmin : min r.data.length BUF_SIZE ≤ r.data.length := Nat.min_le_left _ _
  simp only [ZipEndOfCentralDirectory.find]
  rw [if_neg (show ¬ r.data.length < 22 by omega)]
  rw [readExact]
  rw [if_pos (show (⟨r.data, r.data.length - min r.data.length BUF_SIZE⟩ : ByteStream).pos +
    min r.data.length BUF_SIZE ≤ (⟨r.data, r.data.length - min r.data.length BUF_SIZE⟩ :
    ByteStream).data.length by simp)]
  rw [Outcome.bind_ok]
  have hpos : r.data.length - min r.data.length BUF_SIZE + min r.data.length BUF_SIZE =
    r.data.length := by omega
  simp only [hpos]
  rfl

theorem cdf_find_badsig (s : ByteStream) (h46 : s.pos + 46 ≤ s.data.length)
    (hsig : leVal ((s.data.drop s.pos).take 4) ≠ CENTRAL_DIRECTORY_SIGNATURE) :
    ZipCentralDirectoryFile.find s = .err ⟨.Other⟩ := by
  obtain ⟨d, pos⟩ := s
  simp only at h46 hsig
  rw [ZipCentralDirectoryFile.find]
  rw [readExact]
  rw [if_pos (show (⟨d, pos⟩ : ByteStream).pos + 46 ≤ (⟨d, pos⟩ : ByteStream).data.length
    from h46)]
  simp only [Outcome.monad_bind_eq, Outcome.bind_ok]
  rw [read_le_u32_drop_take d pos 46 (by omega) (by omega)]
  simp only [Outcome.bind_ok]
  rw [if_pos hsig]

/-- The seventeen fixed central-directory header fields as they sit in the
stream data `d` at position `p`. -/
def cdfHeaderAt (d : List Nat) (p : Nat) : ZipCentralDirectoryFileHeader :=
  ⟨leVal ((d.drop p).take 4),
   leVal ((d.drop (p + 4)).take 2),
   leVal ((d.drop (p + 6)).take 2),
   leVal ((d.drop (p + 8)).take 2),
   CompressionMethod.fromU16 (leVal ((d.drop (p + 10)).take 2)),
   leVal ((d.drop (p + 12)).take 2),
   leVal ((d.drop (p + 14)).take 2),
   leVal ((d.drop (p + 16)).take 4),
   leVal ((d.drop (p + 20)).take 4),
   leVal ((d.drop (p + 24)).take 4),
   leVal ((d.drop (p + 28)).take 2),
   leVal ((d.drop (p + 30)).take 2),
   leVal ((d.drop (p + 32)).take 2),
   leVal ((d.drop (p + 34)).take 2),
   leVal ((d.drop (p + 36)).take 2),
   leVal ((d.drop (p + 38)).take 4),
   leVal ((d.drop (p + 42)).take 4)⟩

/-- Declared filename length of the central-directory record at position `p`. -/
def cdfNameLenAt (d : List Nat) (p : Nat) : Nat := leVal ((d.drop (p + 28)).take 2)

/-- Declared extra-field length of the central-directory record at position `p`. -/
def cdfExtraLenAt (d : List Nat) (p : Nat) : Nat := leVal ((d.drop (p + 30)).take 2)

/-- Declared comment length of the central-directory record at position `p`. -/
def cdfCommentLenAt (d : List Nat) (p : Nat) : Nat := leVal ((d.drop (p + 32)).take 2)

theorem take_of_take_drop (d : List Nat) (a k j m : Nat) (h : k + j ≤ m) :
    (((d.drop a).take m).drop k).take j = (d.drop (a + k)).take j := by
  rw [List.drop_take, List.drop_drop, List.take_take, Nat.min_eq_left (by omega)]

theorem nameBranch_eq (buf2 : List Nat) (fn : Nat) (hfn : fn ≤ buf2.length) :
    (if fn = 0 then (pure [] : Outcome (List Nat))
     else Outcome.bind (sliceBytes buf2 0 fn) fromUtf8) = fromUtf8 (buf2.take fn) := by
  by_cases h : fn = 0
  · subst h; rfl
  · rw [if_neg h, sliceBytes_eq_ok buf2 0 fn (by omega) hfn]
    simp only [Outcome.bind_ok, List.drop_zero, Nat.sub_zero]

theorem extraBranch_eq (buf2 : List Nat) (fn ex : Nat) (h : fn + ex ≤ buf2.length) :
    (if ex = 0 then (pure [] : Outcome (List Nat)) else sliceBytes buf2 fn (fn + ex)) =
      .ok ((buf2.drop fn).take ex) := by
  by_cases hex : ex = 0
  · subst hex; rfl
  · rw [if_neg hex, sliceBytes_eq_ok buf2 fn (fn + ex) (by omega) h,
      Nat.add_sub_cancel_left]

theorem commentBranch_eq (buf2 : List Nat) (k cm : Nat) (h : k + cm ≤ buf2.length) :
    (if cm = 0 then (pure [] : Outcome (List Nat))
     else Outcome.bind (sliceBytes buf2 k (k + cm)) fromUtf8) =
      fromUtf8 ((buf2.drop k).take cm) := by
  by_cases hcm : cm = 0
  · subst hcm; rfl
  · rw [if_neg hcm, sliceBytes_eq_ok buf2 k (k + cm) (by omega) h,
      Nat.add_sub_cancel_left]
    simp only [Outcome.bind_ok]

theorem cdf_find_eq (s : ByteStream)
    (h46 : s.pos + 46 ≤ s.data.length)
    (hsig : leVal ((s.data.drop s.pos).take 4) = CENTRAL_DIRECTORY_SIGNATURE)
    (hvar : s.pos + 46 + cdfNameLenAt s.data s.pos + cdfExtraLenAt s.data s.pos +
      cdfCommentLenAt s.data s.pos ≤ s.data.length) :
    ZipCentralDirectoryFile.find s =
      Outcome.bind (fromUtf8 ((s.data.drop (s.pos + 46)).take (cdfNameLenAt s.data s.pos)))
        fun filename =>
      Outcome.bind (fromUtf8 ((s.data.drop (s.pos + 46 + cdfNameLenAt s.data s.pos +
          cdfExtraLenAt s.data s.pos)).take (cdfCommentLenAt s.data s.pos)))
        fun comment =>
      .ok (⟨cdfHeaderAt s.data s.pos, filename,
            (s.data.drop (s.pos + 46 + cdfNameLenAt s.data s.pos)).take
              (cdfExtraLenAt s.data s.pos),
            comment⟩,
           ⟨s.data, s.pos + 46 + cdfNameLenAt s.data s.pos + cdfExtraLenAt s.data s.pos +
             cdfCommentLenAt s.data s.pos⟩) := by
  obtain ⟨d, pos⟩ := s
  simp only at h46 hsig hvar ⊢
  rw [ZipCentralDirectoryFile.find]
  rw [readExact]
  rw [if_pos (show (⟨d, pos⟩ : ByteStream).pos + 46 ≤ (⟨d, pos⟩ : ByteStream).data.length
    from h46)]
  simp only [Outcome.monad_bind_eq, Outcome.bind_ok]
  rw [read_le_u32_drop_take d pos 46 (by omega) (by omega)]
  simp only [Outcome.bind_ok]
  rw [if_neg (show ¬(leVal ((d.drop pos).take 4) ≠ CENTRAL_DIRECTORY_SIGNATURE) from
    by simp [hsig])]
  rw [read_le_u16_drop_take d (pos + 4) (46 - 4) (by omega) (by omega)]
  simp only [Outcome.bind_ok]
  rw [read_le_u16_drop_take d (pos + 4 + 2) (46 - 4 - 2) (by omega) (by omega)]
  simp only [Outcome.bind_ok]
  rw [read_le_u16_drop_take d (pos + 4 + 2 + 2) (46 - 4 - 2 - 2) (by omega) (by omega)]
  simp only [Outcome.bind_ok]
  rw [read_le_u16_drop_take d (pos + 4 + 2 + 2 + 2) (46 - 4 - 2 - 2 - 2) (by omega)
    (by omega)]
  simp only [Outcome.bind_ok]
  rw [read_le_u16_drop_take d (pos + 4 + 2 + 2 + 2 + 2) (46 - 4 - 2 - 2 - 2 - 2) (by omega)
    (by omega)]
  simp only [Outcome.bind_ok]
  rw [read_le_u16_drop_take d (pos + 4 + 2 + 2 + 2 + 2 + 2) (46 - 4 - 2 - 2 - 2 - 2 - 2)
    (by omega) (by omega)]
  simp only [Outcome.bind_ok]
  rw [read_le_u32_drop_take d (pos + 4 + 2 + 2 + 2 + 2 + 2 + 2)
    (46 - 4 - 2 - 2 - 2 - 2 - 2 - 2) (by omega) (by omega)]
  simp only [Outcome.bind_ok]
  rw [read_le_u32_drop_take d (pos + 4 + 2 + 2 + 2 + 2 + 2 + 2 + 4)
    (46 - 4 - 2 - 2 - 2 - 2 - 2 - 2 - 4) (by omega) (by omega)]
  simp only [Outcome.bind_ok]
  rw [read_le_u32_drop_take d (pos + 4 + 2 + 2 + 2 + 2 + 2 + 2 + 4 + 4)
    (46 - 4 - 2 - 2 - 2 - 2 - 2 - 2 - 4 - 4) (by omega) (by omega)]
  simp only [Outcome.bind_ok]
  rw [read_le_u16_drop_take d (pos + 4 + 2 + 2 + 2 + 2 + 2 + 2 + 4 + 4 + 4)
    (46 - 4 - 2 - 2 - 2 - 2 - 2 - 2 - 4 - 4 - 4) (by omega) (by omega)]
  simp only [Outcome.bind_ok]
  rw [read_le_u16_drop_take d (pos + 4 + 2 + 2 + 2 + 2 + 2 + 2 + 4 + 4 + 4 + 2)
    (46 - 4 - 2 - 2 - 2 - 2 - 2 - 2 - 4 - 4 - 4 - 2) (by omega) (by omega)]
  simp only [Outcome.bind_ok]
  rw [read_le_u16_drop_take d (pos + 4 + 2 + 2 + 2 + 2 + 2 + 2 + 4 + 4 + 4 + 2 + 2)
    (46 - 4 - 2 - 2 - 2 - 2 - 2 - 2 - 4 - 4 - 4 - 2 - 2) (by omega) (by omega)]
  simp only [Outcome.bind_ok]
  rw [read_le_u16_drop_take d (pos + 4 + 2 + 2 + 2 + 2 + 2 + 2 + 4 + 4 + 4 + 2 + 2 + 2)
    (46 - 4 - 2 - 2 - 2 - 2 - 2 - 2 - 4 - 4 - 4 - 2 - 2 - 2) (by omega) (by omega)]
  simp only [Outcome.bind_ok]
  rw [read_le_u16_drop_take d (pos + 4 + 2 + 2 + 2 + 2 + 2 + 2 + 4 + 4 + 4 + 2 + 2 + 2 + 2)
    (46 - 4 - 2 - 2 - 2 - 2 - 2 - 2 - 4 - 4 - 4 - 2 - 2 - 2 - 2) (by omega) (by omega)]
  simp only [Outcome.bind_ok]
  rw [read_le_u32_drop_take d
    (pos + 4 + 2 + 2 + 2 + 2 + 2 + 2 + 4 + 4 + 4 + 2 + 2 + 2 + 2 + 2)
    (46 - 4 - 2 - 2 - 2 - 2 - 2 - 2 - 4 - 4 - 4 - 2 - 2 - 2 - 2 - 2) (by omega) (by omega)]
  simp only [Outcome.bind_ok]
  rw [read_le_u32_drop_take d
    (pos + 4 + 2 + 2 + 2 + 2 + 2 + 2 + 4 + 4 + 4 + 2 + 2 + 2 + 2 + 2 + 4)
    (46 - 4 - 2 - 2 - 2 - 2 - 2 - 2 - 4 - 4 - 4 - 2 - 2 - 2 - 2 - 2 - 4) (by omega)
    (by omega)]
  simp only [Outcome.bind_ok]
  have e6 : pos + 4 + 2 = pos + 6 := by omega
  have e8 : pos + 4 + 2 + 2 = pos + 8 := by omega
  have e10 : pos + 4 + 2 + 2 + 2 = pos + 10 := by omega
  have e12 : pos + 4 + 2 + 2 + 2 + 2 = pos + 12 := by omega
  have e14 : pos + 4 + 2 + 2 + 2 + 2 + 2 = pos + 14 := by omega
  have e16 : pos + 4 + 2 + 2 + 2 + 2 + 2 + 2 = pos + 16 := by omega
  have e20 : pos + 4 + 2 + 2 + 2 + 2 + 2 + 2 + 4 = pos + 20 := by omega
  have e24 : pos + 4 + 2 + 2 + 2 + 2 + 2 + 2 + 4 + 4 = pos + 24 := by omega
  have e28 : pos + 4 + 2 + 2 + 2 + 2 + 2 + 2 + 4 + 4 + 4 = pos + 28 := by omega
  have e30 : pos + 4 + 2 + 2 + 2 + 2 + 2 + 2 + 4 + 4 + 4 + 2 = pos + 30 := by omega
  have e32 : pos + 4 + 2 + 2 + 2 + 2 + 2 + 2 + 4 + 4 + 4 + 2 + 2 = pos + 32 := by omega
  have e34 : pos + 4 + 2 + 2 + 2 + 2 + 2 + 2 + 4 + 4 + 4 + 2 + 2 + 2 = pos + 34 := by omega
  have e36 : pos + 4 + 2 + 2 + 2 + 2 + 2 + 2 + 4 + 4 + 4 + 2 + 2 + 2 + 2 = pos + 36 := by
    omega
  have e38 : pos + 4 + 2 + 2 + 2 + 2 + 2 + 2 + 4 + 4 + 4 + 2 + 2 + 2 + 2 + 2 = pos + 38 := by
    omega
  have e42 : pos + 4 + 2 + 2 + 2 + 2 + 2 + 2 + 4 + 4 + 4 + 2 + 2 + 2 + 2 + 2 + 4 =
      pos + 42 := by omega
  rw [e6, e8, e10, e12, e14, e16, e20, e24, e28, e30, e32, e34, e36, e38, e42]
  rw [show leVal ((d.drop (pos + 28)).take 2) = cdfNameLenAt d pos from rfl]
  rw [show leVal ((d.drop (pos + 30)).take 2) = cdfExtraLenAt d pos from rfl]
  rw [show leVal ((d.drop (pos + 32)).take 2) = cdfCommentLenAt d pos from rfl]
  rw [readExact]
  rw [if_pos (show (⟨d, pos + 46⟩ : ByteStream).pos + (cdfNameLenAt d pos +
    cdfExtraLenAt d pos + cdfCommentLenAt d pos) ≤
    (⟨d, pos + 46⟩ : ByteStream).data.length from by simp only; omega)]
  simp only [Outcome.bind_ok]
  have hlb : ((d.drop (pos + 46)).take (cdfNameLenAt d pos + cdfExtraLenAt d pos +
      cdfCommentLenAt d pos)).length = cdfNameLenAt d pos + cdfExtraLenAt d pos +
      cdfCommentLenAt d pos := by
    simp only [List.length_take, List.length_drop]; omega
  rw [nameBranch_eq _ _ (by rw [hlb]; omega)]
  rw [extraBranch_eq _ _ _ (by rw [hlb]; omega)]
  rw [commentBranch_eq _ _ _ (by rw [hlb])]
  rw [List.take_take, Nat.min_eq_left (by omega)]
  rw [take_of_take_drop d (pos + 46) (cdfNameLenAt d pos) (cdfExtraLenAt d pos) _ (by omega)]
  rw [take_of_take_drop d (pos + 46) (cdfNameLenAt d pos + cdfExtraLenAt d pos)
    (cdfCommentLenAt d pos) _ (by omega)]
  have ha1 : pos + 46 + (cdfNameLenAt d pos + cdfExtraLenAt d pos) =
      pos + 46 + cdfNameLenAt d pos + cdfExtraLenAt d pos := by omega
  have ha2 : pos + 46 + (cdfNameLenAt d pos + cdfExtraLenAt d pos + cdfCommentLenAt d pos) =
      pos + 46 + cdfNameLenAt d pos + cdfExtraLenAt d pos + cdfCommentLenAt d pos := by
    omega
  rw [ha1, ha2]
  rfl

theorem cdf_find_eof (s : ByteStream) (h : s.data.length < s.pos + 46) :
    ZipCentralDirectoryFile.find s = .err ⟨.IOError .UnexpectedEof⟩ := by
  rw [ZipCentralDirectoryFile.find, readExact, if_neg (by omega)]
  rfl

/-! ### The entry loop of `ZipArchive::new` -/

theorem Outcome.bind_assoc {α β γ : Type} (x : Outcome α) (f : α → Outcome β)
    (g : β → Outcome γ) : (x.bind f).bind g = x.bind fun a => (f a).bind g := by
  cases x <;> rfl

/-- The effect of the loop's `names.insert(filename, files.len())` calls for a
block of entries `es` whose first entry lands at index `k`. -/
def insertAll (names : NameMap) (es : List ZipCentralDirectoryFile) (k : Nat) : NameMap :=
  match es with
  | [] => names
  | f :: fs => insertAll (insertName names f.filename k) fs (k + 1)

theorem newLoop_eq (n : Nat) :
    ∀ (r : ByteStream) (files : List ZipCentralDirectoryFile) (names : NameMap),
    ZipArchive.newLoop n r files names =
      Outcome.bind (decodeEntries n r) fun p =>
        .ok (files ++ p.1, insertAll names p.1 files.length, p.2) := by
  induction n with
  | zero =>
    intro r files names
    simp [ZipArchive.newLoop, decodeEntries, insertAll]
  | succ n ih =>
    intro r files names
    rw [ZipArchive.newLoop, decodeEntries, Outcome.bind_assoc]
    cases hfind : ZipCentralDirectoryFile.find r with
    | ok cr =>
      rw [Outcome.bind_ok, ih, Outcome.bind_ok, Outcome.bind_assoc]
      refine congrArg (Outcome.bind (decodeEntries n cr.2)) (funext fun p => ?_)
      rw [Outcome.bind_ok]
      simp only [List.append_assoc, List.singleton_append, List.length_append,
        List.length_singleton]
      rfl
    | err e => rw [Outcome.bind_err, Outcome.bind_err]
    | panic => rw [Outcome.bind_panic, Outcome.bind_panic]

theorem decodeEntries_length (n : Nat) :
    ∀ (r : ByteStream) (es : List ZipCentralDirectoryFile) (r' : ByteStream),
    decodeEntries n r = .ok (es, r') → es.length = n := by
  induction n with
  | zero =>
    intro r es r' h
    rw [decodeEntries] at h
    cases h
    rfl
  | succ n ih =>
    intro r es r' h
    rw [decodeEntries] at h
    cases hfind : ZipCentralDirectoryFile.find r with
    | ok cr =>
      rw [hfind, Outcome.bind_ok] at h
      cases hrest : decodeEntries n cr.2 with
      | ok er =>
        rw [hrest, Outcome.bind_ok] at h
        cases h
        simp [ih cr.2 er.1 er.2 hrest]
      | err e => rw [hrest] at h; cases h
      | panic => rw [hrest] at h; cases h
    | err e => rw [hfind] at h; cases h
    | panic => rw [hfind] at h; cases h

/-! ### Name-table lemmas -/

theorem lookupName_cons (m : NameMap) (k : List Nat) (v : Nat) (s : List Nat) :
    lookupName (insertName m k v) s = if k = s then some v else lookupName m s := by
  simp only [insertName, lookupName, List.find?_cons]
  by_cases h : k = s
  · simp [h]
  · have hb : (k == s) = false := by simpa using h
    simp [hb, h]

/-- Index of the last entry of `es` whose filename is `s`, if any. -/
def lastOcc : List ZipCentralDirectoryFile → List Nat → Option Nat
  | [], _ => none
  | f :: fs, s =>
    match lastOcc fs s with
    | some j => some (j + 1)
    | none => if f.filename = s then some 0 else none

theorem lookupName_insertAll (es : List ZipCentralDirectoryFile) :
    ∀ (names : NameMap) (k : Nat) (s : List Nat),
    lookupName (insertAll names es k) s =
      (match lastOcc es s with
       | some j => some (k + j)
       | none => lookupName names s) := by
  induction es with
  | nil => intro names k s; rfl
  | cons f fs ih =>
    intro names k s
    rw [insertAll, ih, lastOcc]
    cases hlo : lastOcc fs s with
    | some j =>
      simp only
      have : k + 1 + j = k + (j + 1) := by omega
      rw [this]
    | none =>
      simp only
      rw [lookupName_cons]
      by_cases hf : f.filename = s
      · simp [hf]
      · simp [hf]

theorem lastOcc_some_imp (s : List Nat) :
    ∀ (es : List ZipCentralDirectoryFile) (j : Nat), lastOcc es s = some j →
      ∃ h : j < es.length, es[j].filename = s := by
  intro es
  induction es with
  | nil => intro j h; simp [lastOcc] at h
  | cons f fs ih =>
    intro j h
    rw [lastOcc] at h
    cases hlo : lastOcc fs s with
    | some jp =>
      rw [hlo] at h
      simp only [Option.some.injEq] at h
      subst h
      obtain ⟨hlt, hname⟩ := ih jp hlo
      exact ⟨by simpa using Nat.succ_lt_succ hlt, by simpa using hname⟩
    | none =>
      rw [hlo] at h
      simp only at h
      by_cases hf : f.filename = s
      · rw [if_pos hf] at h
        simp only [Option.some.injEq] at h
        subst h
        exact ⟨by simp, by simpa using hf⟩
      · rw [if_neg hf] at h
        cases h

theorem lastOcc_eq_none_iff (s : List Nat) :
    ∀ (es : List ZipCentralDirectoryFile),
    lastOcc es s = none ↔ ∀ t (ht : t < es.length), es[t].filename ≠ s := by
  intro es
  induction es with
  | nil => simp [lastOcc]
  | cons f fs ih =>
    rw [lastOcc]
    cases hlo : lastOcc fs s with
    | some j =>
      simp only
      constructor
      · intro h; cases h
      · intro hall
        obtain ⟨hlt, hname⟩ := lastOcc_some_imp s fs j hlo
        exact absurd hname
          (by simpa using hall (j + 1) (by simpa using Nat.succ_lt_succ hlt))
    | none =>
      simp only
      by_cases hf : f.filename = s
      · rw [if_pos hf]
        constructor
        · intro h; cases h
        · intro hall
          exact absurd hf (by simpa using hall 0 (by simp))
      · rw [if_neg hf]
        constructor
        · intro _ t ht
          cases t with
          | zero => simpa using hf
          | succ tp =>
            have := (ih.mp hlo) tp (by simpa using Nat.lt_of_succ_lt_succ ht)
            simpa using this
        · intro _; rfl

theorem lastOcc_eq_some_of (s : List Nat) :
    ∀ (es : List ZipCentralDirectoryFile) (j : Nat) (hj : j < es.length),
      es[j].filename = s →
      (∀ t (ht : t < es.length), j < t → es[t].filename ≠ s) →
      lastOcc es s = some j := by
  intro es
  induction es with
  | nil => intro j hj; simp at hj
  | cons f fs ih =>
    intro j hj hname hafter
    rw [lastOcc]
    cases j with
    | zero =>
      have hnone : lastOcc fs s = none := by
        rw [lastOcc_eq_none_iff]
        intro t ht
        have := hafter (t + 1) (by simpa using Nat.succ_lt_succ ht) (Nat.succ_pos t)
        simpa using this
      simp only [hnone]
      rw [if_pos (by simpa using hname)]
    | succ jp =>
      have hsome : lastOcc fs s = some jp :=
        ih jp (by simpa using Nat.lt_of_succ_lt_succ hj) (by simpa using hname)
          (fun t ht hlt => by
            simpa using hafter (t + 1) (by simpa using Nat.succ_lt_succ ht) (by omega))
      simp only [hsome]

/-! ### Unfolding `ZipArchive.new` -/

theorem new_eq (r : ByteStream) :
    ZipArchive.new r =
      Outcome.bind (ZipEndOfCentralDirectory.find r) fun er =>
        Outcome.bind
          (decodeEntries er.1.header.num_entries
            ⟨er.2.data, er.1.header.cendral_dir_offset⟩)
          fun p => .ok ⟨p.2, er.1, p.1, insertAll [] p.1 0⟩ := by
  rw [ZipArchive.new]
  simp only [Outcome.monad_bind_eq]
  refine congrArg (Outcome.bind _) (funext fun er => ?_)
  obtain ⟨eocd, r1⟩ := er
  simp only
  rw [newLoop_eq, Outcome.bind_assoc]
  refine congrArg (Outcome.bind _) (funext fun p => ?_)
  obtain ⟨es, r2⟩ := p
  simp only [Outcome.bind_ok, List.nil_append, List.length_nil, Outcome.pure_eq]

theorem eocd_find_short (r : ByteStream) (h : r.data.length < 22) :
    ZipEndOfCentralDirectory.find r = .err ⟨.Other⟩ := by
  rw [ZipEndOfCentralDirectory.find, if_pos h]

theorem eocd_find_ok_inv (r : ByteStream) (er : ZipEndOfCentralDirectory × ByteStream)
    (h22 : 22 ≤ r.data.length) (h : ZipEndOfCentralDirectory.find r = .ok er) :
    ∃ i, eocdScan (trailingWindow r.data) = some i ∧
      decodeEocdFrom (trailingWindow r.data) (min r.data.length BUF_SIZE - (i + 4)) =
        .ok er.1 ∧
      er.2 = ⟨r.data, r.data.length⟩ := by
  rw [eocd_find_eq r h22] at h
  cases hscan : eocdScan (trailingWindow r.data) with
  | none => rw [hscan] at h; cases h
  | some i =>
    rw [hscan] at h
    have hb : Outcome.bind
        (decodeEocdFrom (trailingWindow r.data) (min r.data.length BUF_SIZE - (i + 4)))
        (fun eocd => .ok (eocd, ⟨r.data, r.data.length⟩)) = .ok er := h
    cases hdec : decodeEocdFrom (trailingWindow r.data)
        (min r.data.length BUF_SIZE - (i + 4)) with
    | ok e =>
      rw [hdec, Outcome.bind_ok] at hb
      cases hb
      exact ⟨i, rfl, hdec, rfl⟩
    | err e => rw [hdec, Outcome.bind_err] at hb; cases hb
    | panic => rw [hdec, Outcome.bind_panic] at hb; cases hb

theorem decodeEocdFrom_ok_inv (buf : List Nat) (start : Nat) (e : ZipEndOfCentralDirectory)
    (h : decodeEocdFrom buf start = .ok e) :
    start + 22 ≤ buf.length ∧ start + 22 + eocdCommentLenAt buf start ≤ buf.length ∧
      e = ⟨eocdHeaderAt buf start,
           (buf.drop (start + 22)).take (eocdCommentLenAt buf start)⟩ ∧
      validUtf8 e.comment = true := by
  by_cases h1 : start + 22 ≤ buf.length
  · by_cases h2 : start + 22 + eocdCommentLenAt buf start ≤ buf.length
    · rw [decodeEocdFrom_eq buf start h1 h2] at h
      by_cases hv : validUtf8 ((buf.drop (start + 22)).take (eocdCommentLenAt buf start)) =
          true
      · rw [if_pos hv] at h
        cases h
        exact ⟨h1, h2, rfl, hv⟩
      · rw [if_neg hv] at h
        cases h
    · rw [decodeEocdFrom_panic_comment buf start h1 (by omega)] at h
      cases h
  · rw [decodeEocdFrom_panic_hdr buf start (by omega)] at h
    cases h

theorem cdf_find_varshort (s : ByteStream)
    (h46 : s.pos + 46 ≤ s.data.length)
    (hsig : leVal ((s.data.drop s.pos).take 4) = CENTRAL_DIRECTORY_SIGNATURE)
    (hvar : s.data.length < s.pos + 46 + cdfNameLenAt s.data s.pos +
      cdfExtraLenAt s.data s.pos + cdfCommentLenAt s.data s.pos) :
    ZipCentralDirectoryFile.find s = .err ⟨.IOError .UnexpectedEof⟩ := by
  obtain ⟨d, pos⟩ := s
  simp only at h46 hsig hvar
  rw [ZipCentralDirectoryFile.find]
  rw [readExact]
  rw [if_pos (show (⟨d, pos⟩ : ByteStream).pos + 46 ≤ (⟨d, pos⟩ : ByteStream).data.length
    from h46)]
  simp only [Outcome.monad_bind_eq, Outcome.bind_ok]
  rw [read_le_u32_drop_take d pos 46 (by omega) (by omega)]
  simp only [Outcome.bind_ok]
  rw [if_neg (show ¬(leVal ((d.drop pos).take 4) ≠ CENTRAL_DIRECTORY_SIGNATURE) from
    by simp [hsig])]
  rw [read_le_u16_drop_take d (pos + 4) (46 - 4) (by omega) (by omega)]
  simp only [Outcome.bind_ok]
  rw [read_le_u16_drop_take d (pos + 4 + 2) (46 - 4 - 2) (by omega) (by omega)]
  simp only [Outcome.bind_ok]
  rw [read_le_u16_drop_take d (pos + 4 + 2 + 2) (46 - 4 - 2 - 2) (by omega) (by omega)]
  simp only [Outcome.bind_ok]
  rw [read_le_u16_drop_take d (pos + 4 + 2 + 2 + 2) (46 - 4 - 2 - 2 - 2) (by omega)
    (by omega)]
  simp only [Outcome.bind_ok]
  rw [read_le_u16_drop_take d (pos + 4 + 2 + 2 + 2 + 2) (46 - 4 - 2 - 2 - 2 - 2) (by omega)
    (by omega)]
  simp only [Outcome.bind_ok]
  rw [read_le_u16_drop_take d (pos + 4 + 2 + 2 + 2 + 2 + 2) (46 - 4 - 2 - 2 - 2 - 2 - 2)
    (by omega) (by omega)]
  simp only [Outcome.bind_ok]
  rw [read_le_u32_drop_take d (pos + 4 + 2 + 2 + 2 + 2 + 2 + 2)
    (46 - 4 - 2 - 2 - 2 - 2 - 2 - 2) (by omega) (by omega)]
  simp only [Outcome.bind_ok]
  rw [read_le_u32_drop_take d (pos + 4 + 2 + 2 + 2 + 2 + 2 + 2 + 4)
    (46 - 4 - 2 - 2 - 2 - 2 - 2 - 2 - 4) (by omega) (by omega)]
  simp only [Outcome.bind_ok]
  rw [read_le_u32_drop_take d (pos + 4 + 2 + 2 + 2 + 2 + 2 + 2 + 4 + 4)
    (46 - 4 - 2 - 2 - 2 - 2 - 2 - 2 - 4 - 4) (by omega) (by omega)]
  simp only [Outcome.bind_ok]
  rw [read_le_u16_drop_take d (pos + 4 + 2 + 2 + 2 + 2 + 2 + 2 + 4 + 4 + 4)
    (46 - 4 - 2 - 2 - 2 - 2 - 2 - 2 - 4 - 4 - 4) (by omega) (by omega)]
  simp only [Outcome.bind_ok]
  rw [read_le_u16_drop_take d (pos + 4 + 2 + 2 + 2 + 2 + 2 + 2 + 4 + 4 + 4 + 2)
    (46 - 4 - 2 - 2 - 2 - 2 - 2 - 2 - 4 - 4 - 4 - 2) (by omega) (by omega)]
  simp only [Outcome.bind_ok]
  rw [read_le_u16_drop_take d (pos + 4 + 2 + 2 + 2 + 2 + 2 + 2 + 4 + 4 + 4 + 2 + 2)
    (46 - 4 - 2 - 2 - 2 - 2 - 2 - 2 - 4 - 4 - 4 - 2 - 2) (by omega) (by omega)]
  simp only [Outcome.bind_ok]
  rw [read_le_u16_drop_take d (pos + 4 + 2 + 2 + 2 + 2 + 2 + 2 + 4 + 4 + 4 + 2 + 2 + 2)
    (46 - 4 - 2 - 2 - 2 - 2 - 2 - 2 - 4 - 4 - 4 - 2 - 2 - 2) (by omega) (by omega)]
  simp only [Outcome.bind_ok]
  rw [read_le_u16_drop_take d (pos + 4 + 2 + 2 + 2 + 2 + 2 + 2 + 4 + 4 + 4 + 2 + 2 + 2 + 2)
    (46 - 4 - 2 - 2 - 2 - 2 - 2 - 2 - 4 - 4 - 4 - 2 - 2 - 2 - 2) (by omega) (by omega)]
  simp only [Outcome.bind_ok]
  rw [read_le_u32_drop_take d
    (pos + 4 + 2 + 2 + 2 + 2 + 2 + 2 + 4 + 4 + 4 + 2 + 2 + 2 + 2 + 2)
    (46 - 4 - 2 - 2 - 2 - 2 - 2 - 2 - 4 - 4 - 4 - 2 - 2 - 2 - 2 - 2) (by omega) (by omega)]
  simp only [Outcome.bind_ok]
  rw [read_le_u32_drop_take d
    (pos + 4 + 2 + 2 + 2 + 2 + 2 + 2 + 4 + 4 + 4 + 2 + 2 + 2 + 2 + 2 + 4)
    (46 - 4 - 2 - 2 - 2 - 2 - 2 - 2 - 4 - 4 - 4 - 2 - 2 - 2 - 2 - 2 - 4) (by omega)
    (by omega)]
  simp only [Outcome.bind_ok]
  have e6 : pos + 4 + 2 = pos + 6 := by omega
  have e8 : pos + 4 + 2 + 2 = pos + 8 := by omega
  have e10 : pos + 4 + 2 + 2 + 2 = pos + 10 := by omega
  have e12 : pos + 4 + 2 + 2 + 2 + 2 = pos + 12 := by omega
  have e14 : pos + 4 + 2 + 2 + 2 + 2 + 2 = pos + 14 := by omega
  have e16 : pos + 4 + 2 + 2 + 2 + 2 + 2 + 2 = pos + 16 := by omega
  have e20 : pos + 4 + 2 + 2 + 2 + 2 + 2 + 2 + 4 = pos + 20 := by omega
  have e24 : pos + 4 + 2 + 2 + 2 + 2 + 2 + 2 + 4 + 4 = pos + 24 := by omega
  have e28 : pos + 4 + 2 + 2 + 2 + 2 + 2 + 2 + 4 + 4 + 4 = pos + 28 := by omega
  have e30 : pos + 4 + 2 + 2 + 2 + 2 + 2 + 2 + 4 + 4 + 4 + 2 = pos + 30 := by omega
  have e32 : pos + 4 + 2 + 2 + 2 + 2 + 2 + 2 + 4 + 4 + 4 + 2 + 2 = pos + 32 := by omega
  have e34 : pos + 4 + 2 + 2 + 2 + 2 + 2 + 2 + 4 + 4 + 4 + 2 + 2 + 2 = pos + 34 := by omega
  have e36 : pos + 4 + 2 + 2 + 2 + 2 + 2 + 2 + 4 + 4 + 4 + 2 + 2 + 2 + 2 = pos + 36 := by
    omega
  have e38 : pos + 4 + 2 + 2 + 2 + 2 + 2 + 2 + 4 + 4 + 4 + 2 + 2 + 2 + 2 + 2 = pos + 38 := by
    omega
  have e42 : pos + 4 + 2 + 2 + 2 + 2 + 2 + 2 + 4 + 4 + 4 + 2 + 2 + 2 + 2 + 2 + 4 =
      pos + 42 := by omega
  rw [e6, e8, e10, e12, e14, e16, e20, e24, e28, e30, e32, e34, e36, e38, e42]
  rw [show leVal ((d.drop (pos + 28)).take 2) = cdfNameLenAt d pos from rfl]
  rw [show leVal ((d.drop (pos + 30)).take 2) = cdfExtraLenAt d pos from rfl]
  rw [show leVal ((d.drop (pos + 32)).take 2) = cdfCommentLenAt d pos from rfl]
  rw [readExact]
  rw [if_neg (show ¬((⟨d, pos + 46⟩ : ByteStream).pos + (cdfNameLenAt d pos +
    cdfExtraLenAt d pos + cdfCommentLenAt d pos) ≤
    (⟨d, pos + 46⟩ : ByteStream).data.length) from by simp only; omega)]
  rfl

theorem cdf_find_ok_inv (s : ByteStream) (cdf : ZipCentralDirectoryFile) (s' : ByteStream)
    (h : ZipCentralDirectoryFile.find s = .ok (cdf, s')) :
    s.pos + 46 ≤ s.data.length ∧
    leVal ((s.data.drop s.pos).take 4) = CENTRAL_DIRECTORY_SIGNATURE ∧
    s.pos + 46 + cdfNameLenAt s.data s.pos + cdfExtraLenAt s.data s.pos +
      cdfCommentLenAt s.data s.pos ≤ s.data.length ∧
    cdf = ⟨cdfHeaderAt s.data s.pos,
           (s.data.drop (s.pos + 46)).take (cdfNameLenAt s.data s.pos),
           (s.data.drop (s.pos + 46 + cdfNameLenAt s.data s.pos)).take
             (cdfExtraLenAt s.data s.pos),
           (s.data.drop (s.pos + 46 + cdfNameLenAt s.data s.pos +
             cdfExtraLenAt s.data s.pos)).take (cdfCommentLenAt s.data s.pos)⟩ ∧
    validUtf8 cdf.filename = true ∧ validUtf8 cdf.comment = true ∧
    s' = ⟨s.data, s.pos + 46 + cdfNameLenAt s.data s.pos + cdfExtraLenAt s.data s.pos +
      cdfCommentLenAt s.data s.pos⟩ := by
  by_cases h46 : s.pos + 46 ≤ s.data.length
  · by_cases hsig : leVal ((s.data.drop s.pos).take 4) = CENTRAL_DIRECTORY_SIGNATURE
    · by_cases hvar : s.pos + 46 + cdfNameLenAt s.data s.pos + cdfExtraLenAt s.data s.pos +
          cdfCommentLenAt s.data s.pos ≤ s.data.length
      · rw [cdf_find_eq s h46 hsig hvar] at h
        by_cases hfn : validUtf8 ((s.data.drop (s.pos + 46)).take
            (cdfNameLenAt s.data s.pos)) = true
        · rw [fromUtf8, if_pos hfn, Outcome.bind_ok] at h
          by_cases hcm : validUtf8 ((s.data.drop (s.pos + 46 + cdfNameLenAt s.data s.pos +
              cdfExtraLenAt s.data s.pos)).take (cdfCommentLenAt s.data s.pos)) = true
          · rw [fromUtf8, if_pos hcm, Outcome.bind_ok] at h
            simp only [Outcome.ok.injEq, Prod.mk.injEq] at h
            obtain ⟨hcdf, hs'⟩ := h
            subst hcdf
            subst hs'
            exact ⟨h46, hsig, hvar, rfl, hfn, hcm, rfl⟩
          · rw [fromUtf8, if_neg hcm, Outcome.bind_err] at h
            cases h
        · rw [fromUtf8, if_neg hfn, Outcome.bind_err] at h
          cases h
      · rw [cdf_find_varshort s h46 hsig (by omega)] at h
        cases h
    · rw [cdf_find_badsig s h46 hsig] at h
      cases h
  · rw [cdf_find_eof s (by omega)] at h
    cases h

theorem Outcome.bind_pair_eta {α β : Type} (x : Outcome (α × β)) :
    Outcome.bind x (fun p => .ok (p.1, p.2)) = x := by
  cases x <;> rfl

theorem decodeEntries_append (k : Nat) :
    ∀ (i : Nat) (r r₁ : ByteStream) (es : List ZipCentralDirectoryFile),
    decodeEntries i r = .ok (es, r₁) →
    decodeEntries (i + k) r =
      Outcome.bind (decodeEntries k r₁) fun p => .ok (es ++ p.1, p.2) := by
  intro i
  induction i with
  | zero =>
    intro r r₁ es h
    rw [decodeEntries] at h
    simp only [Outcome.ok.injEq, Prod.mk.injEq] at h
    obtain ⟨hes, hr⟩ := h
    subst hes
    subst hr
    rw [Nat.zero_add]
    simp only [List.nil_append]
    exact (Outcome.bind_pair_eta _).symm
  | succ i ih =>
    intro r r₁ es h
    rw [decodeEntries] at h
    cases hfind : ZipCentralDirectoryFile.find r with
    | ok cr =>
      rw [hfind, Outcome.bind_ok] at h
      cases hrest : decodeEntries i cr.2 with
      | ok er =>
        rw [hrest, Outcome.bind_ok] at h
        simp only [Outcome.ok.injEq, Prod.mk.injEq] at h
        obtain ⟨hes, hr⟩ := h
        subst hes
        subst hr
        have hik : i + 1 + k = (i + k) + 1 := by omega
        rw [hik, decodeEntries, hfind, Outcome.bind_ok, ih cr.2 er.2 er.1 hrest]
        rw [Outcome.bind_assoc]
        refine congrArg (Outcome.bind _) (funext fun p => ?_)
        rw [Outcome.bind_ok]
        simp
      | err e => rw [hrest, Outcome.bind_err] at h; cases h
      | panic => rw [hrest, Outcome.bind_panic] at h; cases h
    | err e => rw [hfind, Outcome.bind_err] at h; cases h
    | panic => rw [hfind, Outcome.bind_panic] at h; cases h

theorem eocd_find_eq_some (r : ByteStream) (h22 : 22 ≤ r.data.length) (i : Nat)
    (hscan : eocdScan (trailingWindow r.data) = some i) :
    ZipEndOfCentralDirectory.find r =
      Outcome.bind (decodeEocdFrom (trailingWindow r.data)
        (min r.data.length BUF_SIZE - (i + 4))) fun eocd =>
        .ok (eocd, ⟨r.data, r.data.length⟩) := by
  rw [eocd_find_eq r h22, hscan]

theorem eocd_find_eq_none (r : ByteStream) (h22 : 22 ≤ r.data.length)
    (hscan : eocdScan (trailingWindow r.data) = none) :
    ZipEndOfCentralDirectory.find r = .err ⟨.Other⟩ := by
  rw [eocd_find_eq r h22, hscan]

theorem trailingWindow_length (d : List Nat) (h : 22 ≤ d.length) :
    (trailingWindow d).length = min d.length BUF_SIZE := by
  rw [trailingWindow]
  simp only [List.length_take, List.length_drop]
  omega

theorem new_ok_inv (r : ByteStream) (ar : ZipArchive)
    (h : ZipArchive.new r = .ok ar) :
    ar.files.length = ar.eocd.header.num_entries ∧
    (∃ r', decodeEntries ar.eocd.header.num_entries
      ⟨r.data, ar.eocd.header.cendral_dir_offset⟩ = .ok (ar.files, r')) ∧
    ar.names = insertAll [] ar.files 0 := by
  rw [new_eq] at h
  cases hfind : ZipEndOfCentralDirectory.find r with
  | ok er =>
    rw [hfind, Outcome.bind_ok] at h
    have h22 : 22 ≤ r.data.length := by
      by_contra hc
      rw [eocd_find_short r (by omega)] at hfind
      cases hfind
    obtain ⟨i, hscan, hdec, hr2⟩ := eocd_find_ok_inv r er h22 hfind
    cases hde : decodeEntries er.1.header.num_entries
        ⟨er.2.data, er.1.header.cendral_dir_offset⟩ with
    | ok p =>
      rw [hde, Outcome.bind_ok] at h
      cases h
      have hdata : er.2.data = r.data := by rw [hr2]
      rw [hdata] at hde
      exact ⟨(decodeEntries_length _ _ _ _ hde).symm ▸ rfl, ⟨p.2, by
        simpa using hde⟩, rfl⟩
    | err e => rw [hde, Outcome.bind_err] at h; cases h
    | panic => rw [hde, Outcome.bind_panic] at h; cases h
  | err e => rw [hfind, Outcome.bind_err] at h; cases h
  | panic => rw [hfind, Outcome.bind_panic] at h; cases h

/-- Reduces the unbounded "no signature after `st`" condition to a bounded
decidable check, so concrete witnesses can discharge it by evaluation. -/
theorem noLaterSig_of_all (buf : List Nat) (st : Nat)
    (h : ((List.range buf.length).all fun t => decide (t ≤ st) || !sigAt buf t) = true) :
    ∀ t, st < t → sigAt buf t = false := by
  intro t ht
  by_cases hb : t < buf.length
  · have := List.all_eq_true.mp h t (List.mem_range.mpr hb)
    rcases Bool.or_eq_true_iff.mp this with hle | hns
    · exact absurd (of_decide_eq_true hle) (by omega)
    · simpa using hns
  · simp only [sigAt, Bool.and_eq_false_iff]
    left
    simp only [decide_eq_false_iff_not]
    omega

/-! ### Concrete example data -/

/-- A 23-byte stream whose only EOCD signature starts at the unaligned
offset 1 (followed by an all-zero EOCD body and no comment). -/
def c1Buf : List Nat :=
  [0x00, 0x50, 0x4B, 0x05, 0x06,
   0, 0, 0, 0, 0, 0, 0, 0, 0, 0, 0, 0, 0, 0, 0, 0, 0, 0]

/-- A well-formed 73-byte archive: one central-directory record for the
Deflate-compressed file `a.txt`, followed by the EOCD record
(`num_entries = 1`, central directory at offset 0, length 51). -/
def archOneData : List Nat :=
  [0x50, 0x4B, 0x01, 0x02, 20, 0, 20, 0, 0, 0, 8, 0, 0, 0, 0, 0,
   0, 0, 0, 0, 5, 0, 0, 0, 5, 0, 0, 0, 5, 0, 0, 0, 0, 0, 0, 0,
   0, 0, 0, 0, 0, 0, 0, 0, 0, 0,
   0x61, 0x2E, 0x74, 0x78, 0x74,
   0x50, 0x4B, 0x05, 0x06, 0, 0, 0, 0, 1, 0, 1, 0, 51, 0, 0, 0,
   0, 0, 0, 0, 0, 0]

/-- The decoded central-directory entry of `archOneData`. -/
def archOneEntry : ZipCentralDirectoryFile :=
  ⟨⟨0x02014b50, 20, 20, 0, .Deflate, 0, 0, 0, 5, 5, 5, 0, 0, 0, 0, 0, 0⟩,
   [0x61, 0x2E, 0x74, 0x78, 0x74], [], []⟩

/-- The decoded EOCD record of `archOneData`. -/
def archOneEocd : ZipEndOfCentralDirectory := ⟨⟨0x06054b50, 0, 0, 1, 1, 51, 0, 0⟩, []⟩

/-- The archive value produced by opening `archOneData`. -/
def archOneVal : ZipArchive :=
  ⟨⟨archOneData, 51⟩, archOneEocd, [archOneEntry],
   [([0x61, 0x2E, 0x74, 0x78, 0x74], 0)]⟩

/-- One 47-byte central-directory record for a stored file named `a`. -/
def cdfRecA : List Nat :=
  [0x50, 0x4B, 0x01, 0x02, 20, 0, 20, 0, 0, 0, 0, 0, 0, 0, 0, 0,
   0, 0, 0, 0, 1, 0, 0, 0, 1, 0, 0, 0, 1, 0, 0, 0, 0, 0, 0, 0,
   0, 0, 0, 0, 0, 0, 0, 0, 0, 0,
   0x61]

/-- A 116-byte archive with two central-directory records both named `a`. -/
def archTwoData : List Nat :=
  cdfRecA ++ cdfRecA ++
  [0x50, 0x4B, 0x05, 0x06, 0, 0, 0, 0, 2, 0, 2, 0, 94, 0, 0, 0,
   0, 0, 0, 0, 0, 0]

/-- The decoded central-directory entry of `cdfRecA`. -/
def archTwoEntry : ZipCentralDirectoryFile :=
  ⟨⟨0x02014b50, 20, 20, 0, .Uncompressed, 0, 0, 0, 1, 1, 1, 0, 0, 0, 0, 0, 0⟩,
   [0x61], [], []⟩

/-- The archive value produced by opening `archTwoData`. -/
def archTwoVal : ZipArchive :=
  ⟨⟨archTwoData, 94⟩, ⟨⟨0x06054b50, 0, 0, 2, 2, 94, 0, 0⟩, []⟩,
   [archTwoEntry, archTwoEntry], [([0x61], 1), ([0x61], 0)]⟩

/-- A 68-byte stream: 46 zero bytes (not a central-directory record) followed
by an EOCD record declaring one entry at central-directory offset 0. -/
def c4Data : List Nat :=
  List.replicate 46 0 ++
  [0x50, 0x4B, 0x05, 0x06, 0, 0, 0, 0, 1, 0, 1, 0, 46, 0, 0, 0,
   0, 0, 0, 0, 0, 0]

/-- A 47-byte stream holding one central-directory record whose declared
1-byte filename is the invalid UTF-8 byte `0xFF`. -/
def c8Data : List Nat :=
  [0x50, 0x4B, 0x01, 0x02, 20, 0, 20, 0, 0, 0, 0, 0, 0, 0, 0, 0,
   0, 0, 0, 0, 1, 0, 0, 0, 1, 0, 0, 0, 1, 0, 0, 0, 0, 0, 0, 0,
   0, 0, 0, 0, 0, 0, 0, 0, 0, 0,
   0xFF]

/-- A 24-byte stream whose EOCD signature starts 4 bytes before the end, so
the fixed 22-byte header slice runs out of bounds. -/
def c10Data : List Nat :=
  List.replicate 20 0 ++ [0x50, 0x4B, 0x05, 0x06]

/-- Follows the spec's words for claim C1, for comparison with the code's
`eocdScan`: scan only the 4-byte-ALIGNED windows of the buffer, backward
from the end, returning the start offset of the first (nearest-to-end)
aligned window holding the EOCD signature. -/
def alignedScanSpec (buf : List Nat) : Option Nat :=
  (((List.range (buf.length - 3)).filter fun t => t % 4 == 0).reverse).find?
    fun t => sigAt buf t

/-! ### Claims -/

/-- Claim C1, amended: `ZipEndOfCentralDirectory::find` scans the 4-byte-wide
windows of the trailing buffer at every byte offset (stride one byte, not
only 4-byte-aligned starts), backward from the end; it decodes at the match
closest to the end of the window, and fails with the protocol-violation
error kind (`Other`) if no window matches. -/
theorem C1_eocd_backward_scan (r : ByteStream) (h22 : 22 ≤ r.data.length) :
    ((∀ t, sigAt (trailingWindow r.data) t = false) →
      ZipEndOfCentralDirectory.find r = .err ⟨.Other⟩) ∧
    (∀ st, sigAt (trailingWindow r.data) st = true →
      (∀ t, st < t → sigAt (trailingWindow r.data) t = false) →
      ZipEndOfCentralDirectory.find r =
        Outcome.bind (decodeEocdFrom (trailingWindow r.data) st) fun eocd =>
          .ok (eocd, ⟨r.data, r.data.length⟩)) := by
  constructor
  · intro hnone
    exact eocd_find_eq_none r h22 ((eocdScan_eq_none_iff _).mpr hnone)
  · intro st hsig hnear
    have htw := trailingWindow_length r.data h22
    have hst4 : st + 4 ≤ (trailingWindow r.data).length := by
      by_contra hc
      simp [sigAt, hc] at hsig
    have hscan := eocdScan_eq_some_of_nearest _ _ hsig hnear
    have hi : eocdScan (trailingWindow r.data) =
        some (min r.data.length BUF_SIZE - 4 - st) := by rw [hscan, htw]
    rw [eocd_find_eq_some r h22 _ hi]
    have hstart : min r.data.length BUF_SIZE -
        (min r.data.length BUF_SIZE - 4 - st + 4) = st := by
      rw [htw] at hst4
      omega
    rw [hstart]

/-- Claim C1, counterexample to the claim as stated: in `c1Buf` no 4-byte-
aligned window holds the EOCD signature, so by the claim the locator must
fail with a protocol violation; the code succeeds, because it also scans
unaligned windows and the signature sits at offset 1. -/
theorem C1_counterexample :
    alignedScanSpec c1Buf = none ∧
    ZipEndOfCentralDirectory.find ⟨c1Buf, 0⟩ =
      .ok (⟨⟨0x06054b50, 0, 0, 0, 0, 0, 0, 0⟩, []⟩, ⟨c1Buf, 23⟩) := by
  constructor
  · decide
  · decide

/-- Witness for `C1_eocd_backward_scan` at the concrete stream `c1Buf`,
whose nearest-to-end signature match starts at offset 1. -/
theorem C1_witness :
    ZipEndOfCentralDirectory.find ⟨c1Buf, 0⟩ =
      .ok (⟨⟨0x06054b50, 0, 0, 0, 0, 0, 0, 0⟩, []⟩, ⟨c1Buf, 23⟩) := by
  have h := (C1_eocd_backward_scan ⟨c1Buf, 0⟩ (by decide)).2 1 (by decide)
    (noLaterSig_of_all _ 1 (by decide))
  rw [h]
  decide

/-- Claim C5: a stream shorter than the 22-byte minimum EOCD size fails with
the protocol-violation error kind; the result depends only on the length,
never on the stream's bytes (no byte of the stream is read). -/
theorem C5_short_stream (r : ByteStream) (h : r.data.length < 22) :
    ZipEndOfCentralDirectory.find r = .err ⟨.Other⟩ ∧
    (∀ r' : ByteStream, r'.data.length = r.data.length →
      ZipEndOfCentralDirectory.find r' = ZipEndOfCentralDirectory.find r) := by
  refine ⟨eocd_find_short r h, fun r' h' => ?_⟩
  rw [eocd_find_short r h, eocd_find_short r' (by omega)]

/-- Witness for `C5_short_stream` on a 3-byte stream. -/
theorem C5_witness : ZipEndOfCentralDirectory.find ⟨[1, 2, 3], 0⟩ = .err ⟨.Other⟩ :=
  (C5_short_stream ⟨[1, 2, 3], 0⟩ (by decide)).1

/-- Claim C6: the `From<u16>` mapping to `CompressionMethod` is total and
never an error: 0 maps to `Uncompressed`, 8 to `Deflate`, and every other
code to `Unsupported`. -/
theorem C6_compression_method_total (n : Nat) :
    (n = 0 → CompressionMethod.fromU16 n = .Uncompressed) ∧
    (n = 8 → CompressionMethod.fromU16 n = .Deflate) ∧
    (n ≠ 0 → n ≠ 8 → CompressionMethod.fromU16 n = .Unsupported) := by
  refine ⟨fun h => by subst h; rfl, fun h => by subst h; rfl, fun h0 h8 => ?_⟩
  unfold CompressionMethod.fromU16
  split
  · omega
  · omega
  · rfl

/-- Witness for `C6_compression_method_total` at codes 8 and 99. -/
theorem C6_witness :
    CompressionMethod.fromU16 8 = .Deflate ∧
    CompressionMethod.fromU16 99 = .Unsupported :=
  ⟨(C6_compression_method_total 8).2.1 rfl,
   (C6_compression_method_total 99).2.2 (by decide) (by decide)⟩

/-- Claim C10: the EOCD locator panics (out-of-bounds slice) instead of
returning an error whenever the nearest-to-end signature match starts fewer
than 22 bytes before the window's end, or the declared comment length
overruns the bytes remaining after the 22-byte header. -/
theorem C10_eocd_panics (r : ByteStream) (st : Nat)
    (h22 : 22 ≤ r.data.length)
    (hsig : sigAt (trailingWindow r.data) st = true)
    (hnear : ∀ t, st < t → sigAt (trailingWindow r.data) t = false)
    (hoob : min r.data.length BUF_SIZE < st + 22 ∨
      (st + 22 ≤ min r.data.length BUF_SIZE ∧
        min r.data.length BUF_SIZE < st + 22 +
          eocdCommentLenAt (trailingWindow r.data) st)) :
    ZipEndOfCentralDirectory.find r = .panic := by
  have htw := trailingWindow_length r.data h22
  have hst4 : st + 4 ≤ (trailingWindow r.data).length := by
    by_contra hc
    simp [sigAt, hc] at hsig
  have hscan := eocdScan_eq_some_of_nearest _ _ hsig hnear
  have hi : eocdScan (trailingWindow r.data) =
      some (min r.data.length BUF_SIZE - 4 - st) := by rw [hscan, htw]
  rw [eocd_find_eq_some r h22 _ hi]
  have hstart : min r.data.length BUF_SIZE -
      (min r.data.length BUF_SIZE - 4 - st + 4) = st := by
    rw [htw] at hst4
    omega
  rw [hstart]
  rcases hoob with h1 | ⟨h2a, h2b⟩
  · rw [decodeEocdFrom_panic_hdr _ _ (by rw [htw]; omega)]
    rfl
  · rw [decodeEocdFrom_panic_comment _ _ (by rw [htw]; omega) (by rw [htw]; omega)]
    rfl

/-- Witness for `C10_eocd_panics`: in the 24-byte `c10Data` the signature
match starts 4 bytes before the end of the window, and `find` panics. -/
theorem C10_witness : ZipEndOfCentralDirectory.find ⟨c10Data, 0⟩ = .panic :=
  C10_eocd_panics ⟨c10Data, 0⟩ 20 (by decide) (by decide)
    (noLaterSig_of_all _ 20 (by decide)) (Or.inl (by decide))

/-- Claim C7: in both record types a declared `comment_len = L` means exactly
`L` bytes are consumed for the comment and become its (validated) text; with
`L = 0` the comment is empty and decoding cannot fail. For a central-
directory record the stream advances by exactly
`46 + file_name_len + extra_field_len + comment_len` bytes. -/
theorem C7_comment_exact :
    (∀ (s : ByteStream) (cdf : ZipCentralDirectoryFile) (s' : ByteStream),
      ZipCentralDirectoryFile.find s = .ok (cdf, s') →
      s'.data = s.data ∧
      s'.pos = s.pos + 46 + cdf.header.file_name_len + cdf.header.extra_field_len +
        cdf.header.comment_len ∧
      cdf.comment = (s.data.drop (s.pos + 46 + cdf.header.file_name_len +
        cdf.header.extra_field_len)).take cdf.header.comment_len ∧
      validUtf8 cdf.comment = true ∧
      (cdf.header.comment_len = 0 → cdf.comment = [])) ∧
    (∀ (r : ByteStream) (e : ZipEndOfCentralDirectory) (r' : ByteStream),
      ZipEndOfCentralDirectory.find r = .ok (e, r') →
      e.comment.length = e.header.comment_len ∧
      validUtf8 e.comment = true ∧
      (e.header.comment_len = 0 → e.comment = [])) := by
  constructor
  · intro s cdf s' h
    obtain ⟨h46, hsig, hvar, hcdf, hfn, hcm, hs'⟩ := cdf_find_ok_inv s cdf s' h
    subst hcdf
    subst hs'
    refine ⟨rfl, rfl, rfl, hcm, fun hz => ?_⟩
    have hz' : cdfCommentLenAt s.data s.pos = 0 := hz
    show (s.data.drop (s.pos + 46 + cdfNameLenAt s.data s.pos +
      cdfExtraLenAt s.data s.pos)).take (cdfCommentLenAt s.data s.pos) = []
    rw [hz', List.take_zero]
  · intro r e r' h
    have h22 : 22 ≤ r.data.length := by
      by_contra hc
      rw [eocd_find_short r (by omega)] at h
      cases h
    obtain ⟨i, hscan, hdec, hr'⟩ := eocd_find_ok_inv r (e, r') h22 h
    obtain ⟨hh, hc2, he, hv⟩ := decodeEocdFrom_ok_inv _ _ _ hdec
    have he' : e = ⟨eocdHeaderAt (trailingWindow r.data)
        (min r.data.length BUF_SIZE - (i + 4)),
        ((trailingWindow r.data).drop (min r.data.length BUF_SIZE - (i + 4) + 22)).take
          (eocdCommentLenAt (trailingWindow r.data)
            (min r.data.length BUF_SIZE - (i + 4)))⟩ := he
    subst he'
    have hlen : (eocdHeaderAt (trailingWindow r.data)
        (min r.data.length BUF_SIZE - (i + 4))).comment_len =
        eocdCommentLenAt (trailingWindow r.data)
          (min r.data.length BUF_SIZE - (i + 4)) := rfl
    refine ⟨?_, hv, fun hz => ?_⟩
    · show (((trailingWindow r.data).drop _).take _).length = _
      rw [hlen]
      simp only [List.length_take, List.length_drop]
      omega
    · rw [hlen] at hz
      show (((trailingWindow r.data).drop _).take _) = []
      rw [hz, List.take_zero]

/-- Witness for `C7_comment_exact` at the concrete archive `archOneData`
(both record types have `comment_len = 0`). -/
theorem C7_witness :
    (⟨archOneData, 51⟩ : ByteStream).pos = (⟨archOneData, 0⟩ : ByteStream).pos + 46 +
      archOneEntry.header.file_name_len + archOneEntry.header.extra_field_len +
      archOneEntry.header.comment_len ∧
    archOneEntry.comment = [] ∧
    archOneEocd.comment.length = archOneEocd.header.comment_len ∧
    archOneEocd.comment = [] := by
  have h1 := C7_comment_exact.1 ⟨archOneData, 0⟩ archOneEntry ⟨archOneData, 51⟩ (by decide)
  have h2 := C7_comment_exact.2 ⟨archOneData, 0⟩ archOneEocd ⟨archOneData, 73⟩ (by decide)
  exact ⟨h1.2.1, h1.2.2.2.2 (by decide), h2.1, h2.2.2 (by decide)⟩

/-- Claim C8: when the declared filename bytes or comment bytes of a central-
directory record are not valid UTF-8, decoding fails with exactly the
text-decoding error kind `FromUtf8Error` (never the protocol-violation
kind). -/
theorem C8_invalid_text (s : ByteStream)
    (h46 : s.pos + 46 ≤ s.data.length)
    (hsig : leVal ((s.data.drop s.pos).take 4) = CENTRAL_DIRECTORY_SIGNATURE)
    (hvar : s.pos + 46 + cdfNameLenAt s.data s.pos + cdfExtraLenAt s.data s.pos +
      cdfCommentLenAt s.data s.pos ≤ s.data.length)
    (hbad : ¬(validUtf8 ((s.data.drop (s.pos + 46)).take
        (cdfNameLenAt s.data s.pos)) = true ∧
      validUtf8 ((s.data.drop (s.pos + 46 + cdfNameLenAt s.data s.pos +
        cdfExtraLenAt s.data s.pos)).take (cdfCommentLenAt s.data s.pos)) = true)) :
    ZipCentralDirectoryFile.find s = .err ⟨.FromUtf8Error⟩ := by
  rw [cdf_find_eq s h46 hsig hvar]
  by_cases hfn : validUtf8 ((s.data.drop (s.pos + 46)).take
      (cdfNameLenAt s.data s.pos)) = true
  · have hcm : ¬ validUtf8 ((s.data.drop (s.pos + 46 + cdfNameLenAt s.data s.pos +
        cdfExtraLenAt s.data s.pos)).take (cdfCommentLenAt s.data s.pos)) = true :=
      fun hc => hbad ⟨hfn, hc⟩
    rw [fromUtf8, if_pos hfn, Outcome.bind_ok, fromUtf8, if_neg hcm, Outcome.bind_err]
  · rw [fromUtf8, if_neg hfn, Outcome.bind_err]

/-- Witness for `C8_invalid_text`: the record in `c8Data` declares a 1-byte
filename whose byte `0xFF` is not valid UTF-8. -/
theorem C8_witness : ZipCentralDirectoryFile.find ⟨c8Data, 0⟩ = .err ⟨.FromUtf8Error⟩ :=
  C8_invalid_text ⟨c8Data, 0⟩ (by decide) (by decide) (by decide) (by decide)

/-- Claim C2: a successful `ZipArchive::new` yields exactly `num_entries`
entries, in on-disk (stream) order — the list equals the plain sequential
decode from the declared central-directory offset — and the name table maps
every filename that occurs exactly once to the index of its entry. -/
theorem C2_well_formed_open (r : ByteStream) (ar : ZipArchive)
    (h : ZipArchive.new r = .ok ar) :
    ar.files.length = ar.eocd.header.num_entries ∧
    (∃ r', decodeEntries ar.eocd.header.num_entries
      ⟨r.data, ar.eocd.header.cendral_dir_offset⟩ = .ok (ar.files, r')) ∧
    (∀ (i : Nat) (s : List Nat) (hi : i < ar.files.length),
      ar.files[i].filename = s →
      (∀ (j : Nat) (hj : j < ar.files.length), ar.files[j].filename = s → j = i) →
      lookupName ar.names s = some i) := by
  obtain ⟨hlen, hdec, hnames⟩ := new_ok_inv r ar h
  refine ⟨hlen, hdec, fun i s hi hname huniq => ?_⟩
  rw [hnames, lookupName_insertAll]
  have hlast : lastOcc ar.files s = some i := by
    apply lastOcc_eq_some_of s ar.files i hi hname
    intro t ht hlt hts
    exact absurd (huniq t ht hts) (by omega)
  rw [hlast]
  simp

/-- Witness for `C2_well_formed_open` at the one-entry archive `archOneData`. -/
theorem C2_witness :
    archOneVal.files.length = archOneVal.eocd.header.num_entries ∧
    lookupName archOneVal.names [0x61, 0x2E, 0x74, 0x78, 0x74] = some 0 := by
  have h := C2_well_formed_open ⟨archOneData, 0⟩ archOneVal (by decide)
  refine ⟨h.1, h.2.2 0 [0x61, 0x2E, 0x74, 0x78, 0x74] (by decide) (by decide) ?_⟩
  intro j hj hn
  have hl1 : archOneVal.files.length = 1 := by decide
  omega

/-- Claim C3: when exactly the two entries at indices `i < j` carry the
filename `s`, the name table maps `s` to the later index `j`, while the
entry list remains the plain sequential decode (both entries unchanged at
their positions). -/
theorem C3_duplicate_names (r : ByteStream) (ar : ZipArchive)
    (h : ZipArchive.new r = .ok ar) (i j : Nat) (s : List Nat)
    (hi : i < ar.files.length) (hj : j < ar.files.length) (hij : i < j)
    (hni : ar.files[i].filename = s) (hnj : ar.files[j].filename = s)
    (honly : ∀ (k : Nat) (hk : k < ar.files.length), ar.files[k].filename = s →
      k = i ∨ k = j) :
    lookupName ar.names s = some j ∧
    (∃ r', decodeEntries ar.eocd.header.num_entries
      ⟨r.data, ar.eocd.header.cendral_dir_offset⟩ = .ok (ar.files, r')) := by
  obtain ⟨hlen, hdec, hnames⟩ := new_ok_inv r ar h
  refine ⟨?_, hdec⟩
  rw [hnames, lookupName_insertAll]
  have hlast : lastOcc ar.files s = some j := by
    apply lastOcc_eq_some_of s ar.files j hj hnj
    intro t ht hlt hts
    rcases honly t ht hts with hti | htj
    · omega
    · omega
  rw [hlast]
  simp

set_option maxRecDepth 8000 in
/-- Witness for `C3_duplicate_names` at the two-entry archive `archTwoData`,
whose entries 0 and 1 both carry the filename `a`. -/
theorem C3_witness : lookupName archTwoVal.names [0x61] = some 1 := by
  have h := C3_duplicate_names ⟨archTwoData, 0⟩ archTwoVal (by decide) 0 1 [0x61]
    (by decide) (by decide) (by decide) (by decide) (by decide) ?_
  · exact h.1
  · intro k hk hn
    have hl2 : archTwoVal.files.length = 2 := by decide
    omega

/-- Claim C4: if the `i`-th central-directory record read by `new` does not
begin with signature `0x02014B50`, the entry decoder fails at once with the
protocol-violation kind, `new` returns that error, and no byte past the
46-byte header of record `i` matters: the remaining loop fails identically
for every continuation of the stream after that header. -/
theorem C4_bad_signature (r : ByteStream) (eocd : ZipEndOfCentralDirectory)
    (r₁ : ByteStream) (i : Nat) (es : List ZipCentralDirectoryFile) (rest : ByteStream)
    (hfind : ZipEndOfCentralDirectory.find r = .ok (eocd, r₁))
    (hi : i < eocd.header.num_entries)
    (hdec : decodeEntries i ⟨r.data, eocd.header.cendral_dir_offset⟩ = .ok (es, rest))
    (h46 : rest.pos + 46 ≤ rest.data.length)
    (hsig : leVal ((rest.data.drop rest.pos).take 4) ≠ CENTRAL_DIRECTORY_SIGNATURE) :
    ZipArchive.new r = .err ⟨.Other⟩ ∧
    (∀ tail : List Nat,
      decodeEntries (eocd.header.num_entries - i)
        ⟨(rest.data.drop rest.pos).take 46 ++ tail, 0⟩ = .err ⟨.Other⟩) := by
  have hKi : eocd.header.num_entries - i = (eocd.header.num_entries - i - 1) + 1 := by
    omega
  have hlen46 : ((rest.data.drop rest.pos).take 46).length = 46 := by
    simp only [List.length_take, List.length_drop]
    omega
  constructor
  · have h22 : 22 ≤ r.data.length := by
      by_contra hc
      rw [eocd_find_short r (by omega)] at hfind
      cases hfind
    obtain ⟨ii, hscan, hdec', hr1⟩ := eocd_find_ok_inv r (eocd, r₁) h22 hfind
    rw [new_eq, hfind]
    simp only [Outcome.bind_ok]
    have hr1d : r₁.data = r.data := by
      have : r₁ = (⟨r.data, r.data.length⟩ : ByteStream) := hr1
      rw [this]
    rw [hr1d]
    have hsplit : eocd.header.num_entries = i + (eocd.header.num_entries - i) := by omega
    rw [hsplit,
      decodeEntries_append (eocd.header.num_entries - i) i _ rest es hdec]
    have hfail : ZipCentralDirectoryFile.find rest = .err ⟨.Other⟩ :=
      cdf_find_badsig rest h46 hsig
    rw [hKi, decodeEntries, hfail, Outcome.bind_err, Outcome.bind_err, Outcome.bind_err]
  · intro tail
    have hfails : ZipCentralDirectoryFile.find
        ⟨(rest.data.drop rest.pos).take 46 ++ tail, 0⟩ = .err ⟨.Other⟩ := by
      apply cdf_find_badsig
      · simp only [List.length_append, hlen46]
        omega
      · have h1 : ((((rest.data.drop rest.pos).take 46 ++ tail)).drop 0).take 4 =
            (rest.data.drop rest.pos).take 4 := by
          rw [List.drop_zero, List.take_append_of_le_length (by rw [hlen46]; omega),
            List.take_take, Nat.min_eq_left (by omega)]
        exact h1 ▸ hsig
    rw [hKi, decodeEntries, hfails, Outcome.bind_err]

/-- The decoded EOCD record of `c4Data`. -/
def c4Eocd : ZipEndOfCentralDirectory := ⟨⟨0x06054b50, 0, 0, 1, 1, 46, 0, 0⟩, []⟩

/-- Witness for `C4_bad_signature`: in `c4Data` the EOCD declares one entry
at offset 0, but the bytes there are zeros, not a central-directory record. -/
theorem C4_witness :
    ZipArchive.new ⟨c4Data, 0⟩ = .err ⟨.Other⟩ ∧
    decodeEntries 1 ⟨c4Data.take 46 ++ [1, 2, 3], 0⟩ = .err ⟨.Other⟩ := by
  have h := C4_bad_signature ⟨c4Data, 0⟩ c4Eocd ⟨c4Data, 68⟩ 0 [] ⟨c4Data, 0⟩
    (by decide) (by decide) (by decide) (by decide) (by decide)
  exact ⟨h.1, h.2 [1, 2, 3]⟩

/-- Claim C9 (supporting theorem for the recorded divergence): every lookup
that the internal name table can answer returns the index of an entry whose
filename is exactly the queried byte string (exact, case-sensitive match,
no normalization). The claimed public lookup operation itself does not
exist in the code: the `names` field is private and no method reads it. -/
theorem C9_name_table_lookup (r : ByteStream) (ar : ZipArchive)
    (h : ZipArchive.new r = .ok ar) (s : List Nat) (i : Nat)
    (hl : lookupName ar.names s = some i) :
    (ar.files.map ZipCentralDirectoryFile.filename)[i]? = some s := by
  obtain ⟨hlen, hdec, hnames⟩ := new_ok_inv r ar h
  rw [hnames, lookupName_insertAll] at hl
  cases hlo : lastOcc ar.files s with
  | none => rw [hlo] at hl; cases hl
  | some j =>
    rw [hlo] at hl
    have hb : some (0 + j) = some i := hl
    have hji : i = j := by simpa using hb.symm
    rw [hji]
    obtain ⟨hjl, hname⟩ := lastOcc_some_imp s ar.files j hlo
    rw [List.getElem?_map, List.getElem?_eq_getElem hjl]
    simp [hname]

/-- Witness for `C9_name_table_lookup` at the one-entry archive. -/
theorem C9_witness :
    (archOneVal.files.map ZipCentralDirectoryFile.filename)[0]? =
      some [0x61, 0x2E, 0x74, 0x78, 0x74] :=
  C9_name_table_lookup ⟨archOneData, 0⟩ archOneVal (by decide)
    [0x61, 0x2E, 0x74, 0x78, 0x74] 0 (by decide)
